import Mathlib

/-!
Verification development for the river music server (river.go).

The definitions below are a shallow embedding of the Go source:
Go maps are modelled as association lists with string keys, the
filesystem walked by the reconciler as a list of (relative path,
modification time) pairs, the external probe/encode tools as
parameters (an oracle for probe outcomes, an outcome value for the
encoder run), and crypto/rand as a stream of draws.  Machine details
that no statement here depends on (UTF-8 bytes versus code points for
ASCII data, 64-bit integer overflow in strconv.Atoi) are noted where
they are abstracted.
-/

namespace River

/-! ### Association lists: the model of Go string-keyed maps -/

def alookup {β : Type} (k : String) : List (String × β) → Option β
  | [] => none
  | e :: rest => if e.1 = k then some e.2 else alookup k rest

def ainsert {β : Type} (k : String) (v : β) : List (String × β) → List (String × β)
  | [] => [(k, v)]
  | e :: rest => if e.1 = k then (k, v) :: rest else e :: ainsert k v rest

def aerase {β : Type} (k : String) : List (String × β) → List (String × β)
  | [] => []
  | e :: rest => if e.1 = k then rest else e :: aerase k rest

def akeys {β : Type} (l : List (String × β)) : List String := l.map Prod.fst

/-! ### String primitives used by the Go code

Go strings are byte strings compared byte-wise; on the UTF-8 encodings the
code manipulates, byte-wise order coincides with code-point order, which is
what the list-of-char comparison below computes.  strings.ToLower /
strings.ToUpper are modelled on the ASCII range (the only range the sort
claims exercise). -/

def goCharToLower (c : Char) : Char :=
  if 65 ≤ c.toNat ∧ c.toNat ≤ 90 then Char.ofNat (c.toNat + 32) else c

def goCharToUpper (c : Char) : Char :=
  if 97 ≤ c.toNat ∧ c.toNat ≤ 122 then Char.ofNat (c.toNat - 32) else c

def goToLower (s : String) : String := String.mk (s.data.map goCharToLower)

def goToUpper (s : String) : String := String.mk (s.data.map goCharToUpper)

def listLt : List Char → List Char → Bool
  | [], [] => false
  | [], _ :: _ => true
  | _ :: _, [] => false
  | a :: as, b :: bs => if a < b then true else if b < a then false else listLt as bs

def goStrLt (s t : String) : Bool := listLt s.data t.data

/-- Model of strconv.Atoi restricted to the values the library feeds it:
an optional sign followed by decimal digits; anything else is an error
(none).  64-bit range clamping on overflow is not modelled; no claim
depends on it. -/
def digitsValAux : List Char → Nat → Option Nat
  | [], acc => some acc
  | c :: rest, acc =>
    if c.isDigit then digitsValAux rest (acc * 10 + (c.toNat - 48)) else none

def digitsVal : List Char → Option Nat
  | [] => none
  | c :: rest => digitsValAux (c :: rest) 0

def goAtoi (s : String) : Option Int :=
  match s.data with
  | '+' :: rest => (digitsVal rest).map Int.ofNat
  | '-' :: rest => (digitsVal rest).map (fun n => -(n : Int))
  | cs => (digitsVal cs).map Int.ofNat

/-- Model of strings.Split(s, "/")[0]: the prefix before the first slash
(the whole string when there is none). -/
def splitSlashHead (s : String) : String :=
  String.mk (s.data.takeWhile (fun c => c ≠ '/'))

/-- river.go valInt: numerator of an optional "N/total" form, 0 when
strconv.Atoi fails (absent or non-numeric tag). -/
def valInt (valString : String) : Int :=
  (goAtoi (splitSlashHead valString)).getD 0

/-- Model of path.Ext: the suffix of the name beginning at the final dot,
empty when there is no dot. -/
def lastDotSuffix : List Char → Option (List Char)
  | [] => none
  | c :: rest =>
    match lastDotSuffix rest with
    | some suf => some suf
    | none => if c = '.' then some (c :: rest) else none

def pathExt (s : String) : String :=
  match lastDotSuffix s.data with
  | some suf => String.mk suf
  | none => ""

/-- Model of strings.TrimSuffix. -/
def trimSuffix (s suf : String) : String :=
  if suf.data.isSuffixOf s.data then String.mk (s.data.take (s.data.length - suf.data.length))
  else s

/-! ### The data model (river.go lines 637-692) -/

def idLeastByte : Nat := 97

def idGreatestByte : Nat := 122

def songIDLength : Nat := 8

/-- Afmt (river.go 644-672). -/
structure Afmt where
  fmt : String
  mime : String
  args : List String
deriving Repr, DecidableEq

def afmts : List (String × Afmt) :=
  [(".opus", { fmt := "ogg", mime := "audio/ogg",
               args := ["-b:a", "128000", "-compression_level", "0"] }),
   (".mp3", { fmt := "mp3", mime := "audio/mpeg", args := ["-q", "4"] })]

/-- Song (river.go 674-692): time is the source file's modification time,
modelled as a Nat timestamp. -/
structure Song where
  id : String
  path : String
  time : Nat
  artist : String
  album : String
  disc : Int
  track : Int
  title : String
deriving Repr, DecidableEq

/-! ### The sorted listing's comparison (river.go 694-725) -/

/-- compareFold (river.go 701-705): (equal-folded, less-folded). -/
def compareFold (s t : String) : Bool × Bool :=
  (goToLower s == goToLower t, goStrLt (goToLower s) (goToLower t))

/-- ByTags.Less (river.go 707-725). -/
def byTagsLess (a b : Song) : Bool :=
  if !(compareFold a.artist b.artist).1 then (compareFold a.artist b.artist).2
  else if !(compareFold a.album b.album).1 then (compareFold a.album b.album).2
  else if a.disc != b.disc then decide (a.disc < b.disc)
  else if a.track != b.track then decide (a.track < b.track)
  else if !(compareFold a.title b.title).1 then (compareFold a.title b.title).2
  else (compareFold a.path b.path).2

/-- The comparison as the spec sentence words it: identical chain but with
the RAW path as the final tie-break.  Used only to compare against
byTagsLess; the code disagrees with it. -/
def byTagsLessSpec (a b : Song) : Bool :=
  if !(compareFold a.artist b.artist).1 then (compareFold a.artist b.artist).2
  else if !(compareFold a.album b.album).1 then (compareFold a.album b.album).2
  else if a.disc != b.disc then decide (a.disc < b.disc)
  else if a.track != b.track then decide (a.track < b.track)
  else if !(compareFold a.title b.title).1 then (compareFold a.title b.title).2
  else goStrLt a.path b.path

/-- The six-key lexicographic order byTagsLess is claimed (after amendment)
to implement: folded artist, folded album, disc, track, folded title,
folded path. -/
def tagKeyLt (a b : Song) : Prop :=
  goStrLt (goToLower a.artist) (goToLower b.artist) = true ∨
  (goToLower a.artist = goToLower b.artist ∧
   (goStrLt (goToLower a.album) (goToLower b.album) = true ∨
    (goToLower a.album = goToLower b.album ∧
     (a.disc < b.disc ∨
      (a.disc = b.disc ∧
       (a.track < b.track ∨
        (a.track = b.track ∧
         (goStrLt (goToLower a.title) (goToLower b.title) = true ∨
          (goToLower a.title = goToLower b.title ∧
           goStrLt (goToLower a.path) (goToLower b.path) = true)))))))))

/-- Insertion into a list sorted by a Boolean comparison. -/
def insertLe {α : Type} (le : α → α → Bool) (x : α) : List α → List α
  | [] => [x]
  | y :: ys => if le x y then x :: y :: ys else y :: insertLe le x ys

def sortBy {α : Type} (le : α → α → Bool) (l : List α) : List α :=
  l.foldr (insertLe le) []

/-- Model of sort.Sort(ByTags(...)): a comparison sort w.r.t. ByTags.Less. -/
def sortSongs (l : List Song) : List Song :=
  sortBy (fun a b => !byTagsLess b a) l

/-! ### The identifier allocator genID (river.go 832-843)

rand.Int(rand.Reader, big.NewInt(int64(idGreatestByte-idLeastByte))) returns
a uniform value in the half-open interval [0, idGreatestByte-idLeastByte),
i.e. a Fin (idGreatestByte - idLeastByte); the reader may fail, which
genID propagates.  The entropy source is modelled as a stream of such
draws indexed by position. -/

def idSpan : Nat := idGreatestByte - idLeastByte

def genIDAux (r : Nat → Option (Fin idSpan)) : Nat → Nat → Option (List Char)
  | _, 0 => some []
  | i, Nat.succ k =>
    match r i with
    | none => none
    | some n =>
      match genIDAux r (i + 1) k with
      | none => none
      | some cs => some (Char.ofNat (idLeastByte + n.val) :: cs)

def genID (len : Nat) (r : Nat → Option (Fin idSpan)) : Option String :=
  (genIDAux r 0 len).map fun cs => String.mk cs

/-! ### Artifacts and deleteStream (river.go 917-929, 1062-1064) -/

def streamDirPath : String := ".stream"

/-- streamPath (river.go 1062-1064): filepath.Join(streamDirPath, s.ID) + ext. -/
def streamPath (s : Song) (ext : String) : String :=
  streamDirPath ++ "/" ++ s.id ++ ext

/-- The artifact directory is modelled as the list of file paths it holds. -/
def removeFile (arts : List String) (p : String) : List String :=
  arts.filter (fun a => a != p)

/-- deleteStream (river.go 917-929): remove the artifact for every
supported format extension (a missing artifact is skipped). -/
def deleteStream (s : Song) (arts : List String) : List String :=
  (afmts.map Prod.fst).foldl (fun acc ext => removeFile acc (streamPath s ext)) arts

/-! ### The reconciler Library.reload (river.go 941-986)

The walked library directory is a list of (library-relative path,
modification time) pairs in walk order; filepath.Walk yields each regular
file once.  The probe tool is an oracle from relative path to an optional
tag record (none covers every newSong failure: non-audio, low probe score,
malformed output, I/O error).  crypto/rand is a supply of fresh ids
consumed in order. -/

structure Meta where
  artist : String
  album : String
  disc : Int
  track : Int
  title : String
deriving Repr, DecidableEq

/-- Reconciler working state: both mappings, the artifact directory, and
the position in the fresh-id supply. -/
structure RState where
  byPath : List (String × Song)
  byID : List (String × Song)
  arts : List String
  ctr : Nat
deriving Repr, DecidableEq

/-- The per-file re-probe decision (river.go 950-960):
reload = fi.ModTime().After(sOld.Time) for a known path, true for a new
path. -/
def shouldReload (byPath : List (String × Song)) (f : String × Nat) : Bool :=
  match alookup f.1 byPath with
  | some sOld => decide (sOld.time < f.2)
  | none => true

/-- The Song built by a successful probe in newSong (river.go 878-913):
reuse the prior id when the path is already known, otherwise take the next
fresh id. -/
def buildSong (byPath : List (String × Song)) (supply : Nat → String) (ctr : Nat)
    (f : String × Nat) (meta : Meta) : Song × Nat :=
  match alookup f.1 byPath with
  | some sOld =>
    ({ id := sOld.id, path := f.1, time := f.2, artist := meta.artist, album := meta.album,
       disc := meta.disc, track := meta.track, title := meta.title }, ctr)
  | none =>
    ({ id := supply ctr, path := f.1, time := f.2, artist := meta.artist, album := meta.album,
       disc := meta.disc, track := meta.track, title := meta.title }, ctr + 1)

/-- One iteration of the walk callback (river.go 942-971). -/
def walkStep (probe : String → Option Meta) (supply : Nat → String)
    (st : RState) (f : String × Nat) : RState :=
  if shouldReload st.byPath f then
    match probe f.1 with
    | none => st
    | some meta =>
      { byPath := ainsert f.1 (buildSong st.byPath supply st.ctr f meta).1 st.byPath
        byID := ainsert (buildSong st.byPath supply st.ctr f meta).1.id
                  (buildSong st.byPath supply st.ctr f meta).1 st.byID
        arts := deleteStream (buildSong st.byPath supply st.ctr f meta).1 st.arts
        ctr := (buildSong st.byPath supply st.ctr f meta).2 }
  else st

/-- walkStep instrumented with whether l.newSong (the probe subprocess)
was invoked for the file. -/
def walkStepP (probe : String → Option Meta) (supply : Nat → String)
    (st : RState) (f : String × Nat) : RState × Bool :=
  (walkStep probe supply st f, shouldReload st.byPath f)

/-- The cleanup loop after the walk (river.go 972-978): every entry whose
backing file no longer exists is dropped from both mappings and its
artifacts deleted.  Go iterates the map once, deleting as it goes; on the
association-list model this is a filter of the path map plus the
corresponding erasures. -/
def dropMissing (fsPaths : List String) (st : RState) : RState :=
  { byPath := st.byPath.filter (fun e => fsPaths.contains e.1)
    byID := (st.byPath.filter (fun e => !(fsPaths.contains e.1))).foldl
              (fun m e => aerase e.2.id m) st.byID
    arts := (st.byPath.filter (fun e => !(fsPaths.contains e.1))).foldl
              (fun a e => deleteStream e.2 a) st.arts
    ctr := st.ctr }

/-- Library.reload (river.go 941-986): walk, drop vanished entries,
rebuild the sorted listing.  The marshal step only persists state and is
not modelled. -/
def reload (probe : String → Option Meta) (supply : Nat → String)
    (fs : List (String × Nat)) (st : RState) : RState × List Song :=
  (dropMissing (fs.map Prod.fst) (fs.foldl (walkStep probe supply) st),
   sortSongs ((dropMissing (fs.map Prod.fst) (fs.foldl (walkStep probe supply) st)).byPath.map
     Prod.snd))

/-- Per-file stability: re-walking the file cannot change the index,
either because the recorded track is at least as new as the file or
because probing the file fails. -/
def fileOK (probe : String → Option Meta) (f : String × Nat)
    (byPath : List (String × Song)) : Prop :=
  (∃ s, alookup f.1 byPath = some s ∧ (f.2 ≤ s.time ∨ probe f.1 = none)) ∨
  (alookup f.1 byPath = none ∧ probe f.1 = none)

/-- A path map stable for every walked file. -/
def Stable (probe : String → Option Meta) (fs : List (String × Nat))
    (byPath : List (String × Song)) : Prop :=
  ∀ f, f ∈ fs → fileOK probe f byPath

/-- The two mappings are in bijection: each is keyed without duplicates,
every path entry is indexed by its own id, and every id entry is indexed
by its own path. -/
def InvPair (byPath byID : List (String × Song)) : Prop :=
  (akeys byPath).Nodup ∧ (akeys byID).Nodup ∧
  (∀ p s, alookup p byPath = some s → s.path = p ∧ alookup s.id byID = some s) ∧
  (∀ i s, alookup i byID = some s → s.id = i ∧ alookup s.path byPath = some s)

/-- The yet-unconsumed fresh ids avoid every id currently in the path
map.  genID only makes this probable (no collision check): it is the
hypothesis under which the bijection invariant is preserved. -/
def WFresh (supply : Nat → String) (st : RState) : Prop :=
  ∀ i p s, alookup p st.byPath = some s → st.ctr ≤ i → supply i ≠ s.id

/-! ### The encoder Encoder.Encode and Library.getStream
(river.go 744-772, 1066-1088), sequential view

The dedup locking of Encode is modelled separately as a transition system
(EStep below); encodeGo is the body as one caller observes it once it
holds both locks.  The filesystem is a predicate on paths; the external
tool run is an outcome parameter.  Result: (returned error, filesystem
after, whether the tool subprocess ran). -/

inductive RunOutcome where
  | success
  | failure (partialLeft : Bool)
deriving Repr, DecidableEq

def fsSet (fs : String → Bool) (p : String) (v : Bool) : String → Bool :=
  fun q => if q = p then v else fs q

def encodeGo (fs : String → Bool) (dest : String) (o : RunOutcome) :
    Option String × (String → Bool) × Bool :=
  if fs dest then (none, fs, false)
  else
    match o with
    | RunOutcome.success => (none, fsSet fs dest true, true)
    | RunOutcome.failure partialLeft =>
      let fs1 := fsSet fs dest partialLeft
      let fs2 := if fs1 dest then fsSet fs1 dest false else fs1
      (none, fs2, true)

inductive StreamResp where
  | notFound
  | serverError
  | serveFile (path mime : String)
deriving Repr, DecidableEq

/-- Library.getStream (river.go 1066-1088) given the base component of the
request URL.  Result: (response, filesystem after, whether the encoder
subprocess ran). -/
def getStreamGo (byID : List (String × Song)) (fs : String → Bool) (o : RunOutcome)
    (base : String) : StreamResp × (String → Bool) × Bool :=
  let ext := pathExt base
  match alookup (trimSuffix base ext) byID with
  | none => (StreamResp.notFound, fs, false)
  | some s =>
    match alookup ext afmts with
    | none => (StreamResp.notFound, fs, false)
    | some af =>
      let sp := streamPath s ext
      let r := encodeGo fs sp o
      match r.1 with
      | some _ => (StreamResp.serverError, r.2.1, r.2.2)
      | none => (StreamResp.serveFile sp af.mime, r.2.1, r.2.2)

/-! ### The probe output and Library.newSong (river.go 790-817, 845-915)

JSON values as decoded into the tags struct; jnum carries the numeric
value (JSON numbers are decimal literals, represented exactly as
rationals).  GoResult distinguishes a returned error from a runtime panic
(a failed unchecked interface type assertion). -/

inductive JVal where
  | jnull
  | jbool (b : Bool)
  | jnum (q : Rat)
  | jstr (s : String)
  | jarr (elems : List JVal)
  | jobj (fields : List (String × JVal))

structure ProbeOut where
  format : List (String × JVal)
  streams : List (List (String × JVal))

inductive GoResult (α : Type) where
  | ok (a : α)
  | goError (msg : String)
  | goPanic (msg : String)
deriving DecidableEq

/-- valRaw (river.go 795-805): the checked assertions make every branch
total. -/
def valRaw (key : String) (cont : List (String × JVal)) : Option String :=
  match alookup "tags" cont with
  | some (JVal.jobj tags) =>
    (match alookup (goToLower key) tags with
     | some (JVal.jstr v) => some v
     | _ =>
       match alookup (goToUpper key) tags with
       | some (JVal.jstr v) => some v
       | _ => none)
  | _ => none

def tvalStreams (key : String) : List (List (String × JVal)) → Option String
  | [] => none
  | st :: rest =>
    match valRaw key st with
    | some v => some v
    | none => tvalStreams key rest

/-- tags.val (river.go 807-817): format block first, then each stream in
order. -/
def tval (t : ProbeOut) (key : String) : Option String :=
  match valRaw key t.format with
  | some v => some v
  | none => tvalStreams key t.streams

def isAudioStream (st : List (String × JVal)) : Bool :=
  match alookup "codec_type" st with
  | some (JVal.jstr s) => s == "audio"
  | _ => false

/-- Library.newSong (river.go 845-915) after the probe subprocess
succeeded and its JSON output was decoded into t.  The file's
modification time is mtime; sOld is the prior entry for the path
(l.SongsByPath lookup); freshId is genID's result (none = entropy
failure).  Line 866 reads t.Format["probe_score"].(float64), an
UNCHECKED type assertion: when the format block has no numeric
probe_score, the Go program panics, modelled by goPanic. -/
def newSongGo (t : ProbeOut) (p : String) (sOld : Option Song) (freshId : Option String)
    (mtime : Nat) : GoResult Song :=
  match alookup "probe_score" t.format with
  | some (JVal.jnum score) =>
    if score < 25 then GoResult.goError "undeterminable file type"
    else if !(t.streams.any isAudioStream) then GoResult.goError "no audio stream"
    else
      match (match sOld with | some s0 => some s0.id | none => freshId) with
      | none => GoResult.goError "entropy source failure"
      | some theId =>
        GoResult.ok
          { id := theId, path := p, time := mtime
            artist := (tval t "artist").getD ""
            album := (tval t "album").getD ""
            disc := valInt ((tval t "disc").getD ((tval t "discnumber").getD ""))
            track := valInt ((tval t "track").getD ((tval t "tracknumber").getD ""))
            title := (tval t "title").getD "" }
  | _ => GoResult.goPanic "interface conversion: probe_score is not a float64"

/-! ### The Encode dedup locking as a transition system (river.go 727-772)

Each thread runs Encoder.Encode for its fixed artifact path.  Program
points: start = about to run e.mutex.Lock() (line 745); acqDest = holding
the Encoder-wide mutex, about to look up / create and lock the per-dest
mutex (746-753); check = holding both, about to os.Stat(dest) (754);
run = dest absent, running the subprocess (760-766); ret = returned (the
deferred unlocks of BOTH mutexes fire at return: e.mutex is held for the
whole call).  A failed run removes any partial dest (767-770). -/

inductive PC where
  | start
  | acqDest
  | check
  | run
  | ret
deriving Repr, DecidableEq

structure CState (n : Nat) where
  pc : Fin n → PC
  dest : Fin n → String
  g : Option (Fin n)
  dOwner : String → Option (Fin n)
  fs : String → Bool
  runs : String → Nat

inductive EStep {n : Nat} : CState n → CState n → Prop where
  | lockG (s : CState n) (t : Fin n) (hpc : s.pc t = PC.start) (hg : s.g = none) :
      EStep s { s with pc := Function.update s.pc t PC.acqDest, g := some t }
  | lockD (s : CState n) (t : Fin n) (hpc : s.pc t = PC.acqDest)
      (hd : s.dOwner (s.dest t) = none) :
      EStep s { s with pc := Function.update s.pc t PC.check,
                       dOwner := Function.update s.dOwner (s.dest t) (some t) }
  | checkHit (s : CState n) (t : Fin n) (hpc : s.pc t = PC.check)
      (hfs : s.fs (s.dest t) = true) :
      EStep s { s with pc := Function.update s.pc t PC.ret, g := none,
                       dOwner := Function.update s.dOwner (s.dest t) none }
  | checkMiss (s : CState n) (t : Fin n) (hpc : s.pc t = PC.check)
      (hfs : s.fs (s.dest t) = false) :
      EStep s { s with pc := Function.update s.pc t PC.run }
  | runOk (s : CState n) (t : Fin n) (hpc : s.pc t = PC.run) :
      EStep s { s with pc := Function.update s.pc t PC.ret, g := none,
                       dOwner := Function.update s.dOwner (s.dest t) none,
                       fs := Function.update s.fs (s.dest t) true,
                       runs := Function.update s.runs (s.dest t) (s.runs (s.dest t) + 1) }
  | runFail (s : CState n) (t : Fin n) (hpc : s.pc t = PC.run) :
      EStep s { s with pc := Function.update s.pc t PC.ret, g := none,
                       dOwner := Function.update s.dOwner (s.dest t) none,
                       fs := Function.update s.fs (s.dest t) false,
                       runs := Function.update s.runs (s.dest t) (s.runs (s.dest t) + 1) }

def EReach {n : Nat} : CState n → CState n → Prop := Relation.ReflTransGen EStep

/-- A thread's pc while it holds the Encoder-wide mutex. -/
def pcActive : PC → Prop
  | PC.acqDest => True
  | PC.check => True
  | PC.run => True
  | _ => False

/-- All callers about to enter Encode; no lock held, no encode started. -/
def initC (n : Nat) (dests : Fin n → String) (fs0 : String → Bool) : CState n :=
  { pc := fun _ => PC.start, dest := dests, g := none, dOwner := fun _ => none,
    fs := fs0, runs := fun _ => 0 }

/-- The inductive invariant of the Encode transition system: whoever is
inside the body owns the Encoder-wide mutex, and a running encode is for
a still-absent artifact. -/
def CInv {n : Nat} (s : CState n) : Prop :=
  (∀ t, pcActive (s.pc t) → s.g = some t) ∧
  (∀ t, s.pc t = PC.run → s.fs (s.dest t) = false)

/-- Two-thread scenario for the blocking counterexample: thread 0 encodes
artifact path a0, thread 1 wants the DIFFERENT artifact path b1. -/
def cDests : Fin 2 → String :=
  fun t => if t.val = 0 then ".stream/aaaaaaaa.opus" else ".stream/bbbbbbbb.opus"

def cInit : CState 2 := initC 2 cDests (fun _ => false)

def cS1 : CState 2 :=
  { cInit with pc := Function.update cInit.pc 0 PC.acqDest, g := some 0 }

def cS2 : CState 2 :=
  { cS1 with pc := Function.update cS1.pc 0 PC.check,
             dOwner := Function.update cS1.dOwner (cS1.dest 0) (some 0) }

def cS3 : CState 2 :=
  { cS2 with pc := Function.update cS2.pc 0 PC.run }

/-- A library track whose source container already is the requested
format (an Opus file), for the short-circuit counterexample. -/
def c3Song : Song :=
  { id := "cccccccc", path := "album/track.opus", time := 0, artist := "", album := "",
    disc := 0, track := 0, title := "" }

def c3ByID : List (String × Song) := [("cccccccc", c3Song)]

/-- Probe output whose format block has no probe_score field. -/
def c10BadProbe : ProbeOut :=
  { format := [], streams := [[("codec_type", JVal.jstr "audio")]] }

/-- Probe output whose probe_score is present but not a number. -/
def c10BadProbe2 : ProbeOut :=
  { format := [("probe_score", JVal.jstr "high")],
    streams := [[("codec_type", JVal.jstr "audio")]] }

/-! ### Concrete instances used by counterexamples and witnesses -/

/-- Two songs equal on every tag, whose paths differ only in letter case:
the raw byte order and the case-folded order disagree on them. -/
def c5SongB : Song :=
  { id := "aaaaaaab", path := "B.mp3", time := 0, artist := "x", album := "y",
    disc := 1, track := 2, title := "t" }

def c5SongA : Song :=
  { id := "aaaaaaac", path := "a.mp3", time := 0, artist := "x", album := "y",
    disc := 1, track := 2, title := "t" }

/-- An entropy stream that always succeeds with draw 0. -/
def entropyZero : Nat → Option (Fin idSpan) := fun _ => some ⟨0, by decide⟩

/-- An entropy stream that always fails. -/
def entropyDead : Nat → Option (Fin idSpan) := fun _ => none

/-- Probe output with a passing score, one audio stream, an ARTIST tag and
no disc/track tags. -/
def probeOutPlain : ProbeOut :=
  { format := [("probe_score", JVal.jnum 100), ("tags", JVal.jobj [("ARTIST", JVal.jstr "x")])]
    streams := [[("codec_type", JVal.jstr "audio")]] }

/-- The Song newSongGo builds from probeOutPlain for a new path. -/
def plainSong : Song :=
  { id := "aaaaaaaa", path := "p.mp3", time := 5, artist := "x", album := "",
    disc := 0, track := 0, title := "" }

/-- A probe oracle that accepts every file with empty tags. -/
def probeAlways : String → Option Meta :=
  fun _ => some { artist := "", album := "", disc := 0, track := 0, title := "" }

/-- A fresh-id supply whose draws all collide (crypto/rand may repeat
bytes). -/
def supplyConst : Nat → String := fun _ => "aaaaaaaa"

/-- An injective fresh-id supply. -/
def supplyRep : Nat → String := fun n => String.mk (List.replicate n 'a')

def emptyState : RState := { byPath := [], byID := [], arts := [], ctr := 0 }

def c9FS : List (String × Nat) := [("one.mp3", 1), ("two.mp3", 1)]

/-- A track whose backing file is about to vanish. -/
def c8Song : Song :=
  { id := "dddddddd", path := "gone.mp3", time := 3, artist := "", album := "",
    disc := 0, track := 0, title := "" }

def c8State : RState :=
  { byPath := [("gone.mp3", c8Song)], byID := [("dddddddd", c8Song)],
    arts := [streamPath c8Song ".opus", streamPath c8Song ".mp3"], ctr := 0 }

/-- A state holding one up-to-date track, used to witness the
skip-re-probe decision. -/
def c6Song : Song :=
  { id := "eeeeeeee", path := "keep.mp3", time := 9, artist := "", album := "",
    disc := 0, track := 0, title := "" }

def c6State : RState :=
  { byPath := [("keep.mp3", c6Song)], byID := [("eeeeeeee", c6Song)], arts := [], ctr := 0 }

@[simp]
theorem alookup_nil {β : Type} (k : String) : alookup k ([] : List (String × β)) = none := rfl

@[simp]
theorem alookup_cons {β : Type} (k : String) (e : String × β) (l : List (String × β)) :
    alookup k (e :: l) = if e.1 = k then some e.2 else alookup k l := rfl

@[simp]
theorem alookup_ainsert_self {β : Type} (k : String) (v : β) (l : List (String × β)) :
    alookup k (ainsert k v l) = some v := by
  induction l with
  | nil => simp [ainsert]
  | cons e rest ih =>
    by_cases h : e.1 = k
    · simp [ainsert, h]
    · simp [ainsert, h, ih]

theorem alookup_ainsert_ne {β : Type} {k q : String} (v : β) (l : List (String × β))
    (h : q ≠ k) : alookup q (ainsert k v l) = alookup q l := by
  induction l with
  | nil => simp [ainsert, alookup, Ne.symm h]
  | cons e rest ih =>
    by_cases he : e.1 = k
    · have heq : e.1 ≠ q := by rw [he]; exact Ne.symm h
      simp [ainsert, if_pos he, alookup_cons, Ne.symm h, heq]
    · by_cases hq : e.1 = q
      · simp [ainsert, if_neg he, alookup_cons, if_pos hq]
      · simp [ainsert, if_neg he, alookup_cons, if_neg hq, ih]

theorem alookup_aerase_ne {β : Type} {k q : String} (l : List (String × β))
    (h : q ≠ k) : alookup q (aerase k l) = alookup q l := by
  induction l with
  | nil => simp [aerase]
  | cons e rest ih =>
    by_cases he : e.1 = k
    · have heq : e.1 ≠ q := by rw [he]; exact Ne.symm h
      simp [aerase, if_pos he, alookup_cons, if_neg heq]
    · by_cases hq : e.1 = q
      · simp [aerase, if_neg he, alookup_cons, if_pos hq]
      · simp [aerase, if_neg he, alookup_cons, if_neg hq, ih]

theorem alookup_eq_none_iff {β : Type} (k : String) (l : List (String × β)) :
    alookup k l = none ↔ k ∉ akeys l := by
  induction l with
  | nil => simp [akeys]
  | cons e rest ih =>
    by_cases he : e.1 = k
    · simp [alookup, he, akeys]
    · simp [alookup, he, akeys, ih, Ne.symm he]

theorem alookup_aerase_self {β : Type} {k : String} {l : List (String × β)}
    (h : (akeys l).Nodup) : alookup k (aerase k l) = none := by
  induction l with
  | nil => simp [aerase]
  | cons e rest ih =>
    rcases List.nodup_cons.mp h with ⟨hnm, hnd⟩
    by_cases he : e.1 = k
    · subst he
      simp [aerase]
      exact (alookup_eq_none_iff _ _).mpr hnm
    · simp [aerase, he, alookup, he, ih hnd]

theorem alookup_aerase_none {β : Type} {k q : String} {l : List (String × β)}
    (h : alookup k l = none) : alookup k (aerase q l) = none := by
  induction l with
  | nil => simp [aerase]
  | cons e rest ih =>
    simp only [alookup_cons] at h
    by_cases he : e.1 = k
    · simp [he] at h
    · by_cases hq : e.1 = q
      · simpa [aerase, hq, he] using (by simpa [he] using h)
      · simp only [aerase, if_neg hq, alookup_cons, if_neg he]
        exact ih (by simpa [he] using h)

theorem akeys_aerase_sub {β : Type} (k : String) (l : List (String × β)) :
    ∀ q, q ∈ akeys (aerase k l) → q ∈ akeys l := by
  induction l with
  | nil => simp [aerase]
  | cons e rest ih =>
    intro q hq
    by_cases he : e.1 = k
    · simp only [aerase, if_pos he] at hq
      simp [akeys, hq]
      right
      simpa [akeys] using hq
    · simp only [aerase, if_neg he, akeys, List.map_cons, List.mem_cons] at hq
      rcases hq with hq | hq
      · simp [akeys, hq]
      · simp [akeys]
        right
        simpa [akeys] using ih q hq

theorem nodup_akeys_aerase {β : Type} {k : String} {l : List (String × β)}
    (h : (akeys l).Nodup) : (akeys (aerase k l)).Nodup := by
  induction l with
  | nil => simp [aerase, akeys]
  | cons e rest ih =>
    rcases List.nodup_cons.mp h with ⟨hnm, hnd⟩
    by_cases he : e.1 = k
    · simpa [aerase, he] using hnd
    · simp only [aerase, if_neg he, akeys, List.map_cons, List.nodup_cons]
      constructor
      · intro hmem
        exact hnm (akeys_aerase_sub k rest e.1 hmem)
      · exact ih hnd

theorem akeys_ainsert_sub {β : Type} (k : String) (v : β) (l : List (String × β)) :
    ∀ q, q ∈ akeys (ainsert k v l) → q = k ∨ q ∈ akeys l := by
  induction l with
  | nil => simp [ainsert, akeys]
  | cons e rest ih =>
    intro q hq
    by_cases he : e.1 = k
    · simp only [ainsert, if_pos he, akeys, List.map_cons, List.mem_cons] at hq
      rcases hq with hq | hq
      · exact Or.inl hq
      · exact Or.inr (by simp [akeys]; right; simpa [akeys] using hq)
    · simp only [ainsert, if_neg he, akeys, List.map_cons, List.mem_cons] at hq
      rcases hq with hq | hq
      · exact Or.inr (by simp [akeys, hq])
      · rcases ih q hq with h1 | h1
        · exact Or.inl h1
        · exact Or.inr (by simp [akeys]; right; simpa [akeys] using h1)

theorem nodup_akeys_ainsert {β : Type} {k : String} (v : β) {l : List (String × β)}
    (h : (akeys l).Nodup) : (akeys (ainsert k v l)).Nodup := by
  induction l with
  | nil => simp [ainsert, akeys]
  | cons e rest ih =>
    rcases List.nodup_cons.mp h with ⟨hnm, hnd⟩
    by_cases he : e.1 = k
    · simp only [ainsert, if_pos he, akeys, List.map_cons, List.nodup_cons]
      exact ⟨by simpa [he, akeys] using hnm, hnd⟩
    · simp only [ainsert, if_neg he, akeys, List.map_cons, List.nodup_cons]
      constructor
      · intro hmem
        rcases akeys_ainsert_sub k v rest e.1 hmem with h1 | h1
        · exact he h1
        · exact hnm h1
      · exact ih hnd

theorem mem_of_alookup {β : Type} {k : String} {v : β} {l : List (String × β)}
    (h : alookup k l = some v) : (k, v) ∈ l := by
  induction l with
  | nil => simp [alookup] at h
  | cons e rest ih =>
    simp only [alookup_cons] at h
    by_cases he : e.1 = k
    · simp only [if_pos he, Option.some.injEq] at h
      have h2 : e = (k, v) := by
        obtain ⟨a, b⟩ := e
        simp only at he h
        simp [he, h]
      rw [h2]
      exact List.mem_cons_self _ _
    · simp only [if_neg he] at h
      exact List.mem_cons_of_mem _ (ih h)

theorem alookup_of_mem {β : Type} {k : String} {v : β} {l : List (String × β)}
    (hnd : (akeys l).Nodup) (h : (k, v) ∈ l) : alookup k l = some v := by
  induction l with
  | nil => simp at h
  | cons e rest ih =>
    rcases List.nodup_cons.mp hnd with ⟨hnm, hnd2⟩
    rcases List.mem_cons.mp h with h1 | h1
    · simp [← h1, alookup]
    · have hek : e.1 ≠ k := by
        intro hek
        exact hnm (hek ▸ (by simpa [akeys] using List.mem_map_of_mem Prod.fst h1))
      simp [alookup, hek, ih hnd2 h1]

theorem alookup_filter_pos {β : Type} {p : String → Bool} {k : String}
    (l : List (String × β)) (h : p k = true) :
    alookup k (l.filter fun e => p e.1) = alookup k l := by
  induction l with
  | nil => simp
  | cons e rest ih =>
    by_cases he : e.1 = k
    · simp [List.filter, he, h, alookup]
    · by_cases hp : p e.1
      · simp [List.filter, hp, alookup, he, ih]
      · simp only [List.filter, hp]
        simp only [alookup_cons, if_neg he]
        simpa using ih

theorem alookup_filter_neg {β : Type} {p : String → Bool} {k : String}
    (l : List (String × β)) (h : p k = false) :
    alookup k (l.filter fun e => p e.1) = none := by
  induction l with
  | nil => simp
  | cons e rest ih =>
    by_cases hp : p e.1
    · have he : e.1 ≠ k := by
        intro hek
        rw [hek] at hp
        simp [h] at hp
      simp [List.filter, hp, alookup, he, ih]
    · simp only [List.filter, hp]
      simpa using ih

theorem mem_ainsert {β : Type} {k : String} {v : β} {l : List (String × β)} {e : String × β}
    (h : e ∈ ainsert k v l) : e = (k, v) ∨ e ∈ l := by
  induction l with
  | nil => simpa [ainsert] using h
  | cons f rest ih =>
    by_cases hf : f.1 = k
    · simp only [ainsert, if_pos hf, List.mem_cons] at h
      rcases h with h | h
      · exact Or.inl h
      · exact Or.inr (List.mem_cons_of_mem _ h)
    · simp only [ainsert, if_neg hf, List.mem_cons] at h
      rcases h with h | h
      · exact Or.inr (by simp [h])
      · rcases ih h with h1 | h1
        · exact Or.inl h1
        · exact Or.inr (List.mem_cons_of_mem _ h1)

theorem mem_aerase {β : Type} {k : String} {l : List (String × β)} {e : String × β}
    (h : e ∈ aerase k l) : e ∈ l := by
  induction l with
  | nil => simp [aerase] at h
  | cons f rest ih =>
    by_cases hf : f.1 = k
    · simp only [aerase, if_pos hf] at h
      exact List.mem_cons_of_mem _ h
    · simp only [aerase, if_neg hf, List.mem_cons] at h
      rcases h with h | h
      · simp [h]
      · exact List.mem_cons_of_mem _ (ih h)

/-! ### Facts about the string primitives -/

theorem listLt_irrefl (cs : List Char) : listLt cs cs = false := by
  induction cs with
  | nil => rfl
  | cons c rest ih => simp [listLt, ih]

theorem goStrLt_irrefl (s : String) : goStrLt s s = false := by
  simp [goStrLt, listLt_irrefl]

theorem charOfNat_toNat {m : Nat} (h : m < 55296) : (Char.ofNat m).toNat = m := by
  have hv : m.isValidChar := Or.inl h
  simp [Char.ofNat, hv, Char.ofNatAux, Char.toNat, UInt32.ofNatCore, UInt32.toNat,
    BitVec.toNat_ofNatLt]

theorem valInt_empty : valInt "" = 0 := by decide

/-- Any ok result of newSongGo has the disc and track fields produced by
valInt over the disc/discnumber and track/tracknumber tag lookups. -/
theorem newSongGo_ok_fields {t : ProbeOut} {p : String} {sOld : Option Song}
    {fid : Option String} {mt : Nat} {s : Song}
    (hok : newSongGo t p sOld fid mt = GoResult.ok s) :
    s.disc = valInt ((tval t "disc").getD ((tval t "discnumber").getD "")) ∧
    s.track = valInt ((tval t "track").getD ((tval t "tracknumber").getD "")) := by
  unfold newSongGo at hok
  rcases hlk : alookup "probe_score" t.format with _ | jv <;> rw [hlk] at hok
  · exact absurd hok (by simp)
  · cases jv with
    | jnum q =>
      by_cases hq : q < 25
      · simp [hq] at hok
      · by_cases ha : t.streams.any isAudioStream
        · simp only [hq, if_false, ha, Bool.not_true] at hok
          rw [if_neg (by simp)] at hok
          rcases hid : (match sOld with | some s0 => some s0.id | none => fid) with _ | i <;>
            rw [hid] at hok
          · exact absurd hok (by simp)
          · simp only [GoResult.ok.injEq] at hok
            rw [← hok]
            exact ⟨rfl, rfl⟩
        · simp [hq, ha] at hok
    | jnull => exact absurd hok (by simp)
    | jbool b => exact absurd hok (by simp)
    | jstr v => exact absurd hok (by simp)
    | jarr es => exact absurd hok (by simp)
    | jobj fs => exact absurd hok (by simp)

/-! ### Claim C5: the sorted listing's comparison -/

/-- Claim C5 counterexample: two tracks equal on artist, album, disc,
track and title whose paths are "B.mp3" and "a.mp3".  The claimed RAW
path tie-break (byTagsLessSpec) puts "B.mp3" first (byte 66 is below byte
97), but ByTags.Less compares the paths case-folded and orders "a.mp3"
first: the code's final tie-break is case-insensitive, not raw. -/
theorem c5_raw_tiebreak_counterexample :
    byTagsLessSpec c5SongB c5SongA = true ∧ byTagsLess c5SongB c5SongA = false ∧
    byTagsLess c5SongA c5SongB = true ∧ goStrLt c5SongB.path c5SongA.path = true := by
  decide

/-- Claim C5 (amended): ByTags.Less orders two tracks by case-insensitive
artist, then case-insensitive album, then numeric disc, then numeric
track, then case-insensitive title, then CASE-INSENSITIVE path as the
final tie-break (the lexicographic order tagKeyLt on the six folded
keys); and a Track built by newSong from probe output with no disc
(resp. track) tag gets disc = 0 (resp. track = 0), which tagKeyLt places
before any valid disc or track number, those being at least 1. -/
theorem c5_sort_order :
    (∀ a b : Song, byTagsLess a b = true ↔ tagKeyLt a b) ∧
    (∀ t p sOld fid mt s, newSongGo t p sOld fid mt = GoResult.ok s →
      tval t "disc" = none → tval t "discnumber" = none → s.disc = 0) ∧
    (∀ t p sOld fid mt s, newSongGo t p sOld fid mt = GoResult.ok s →
      tval t "track" = none → tval t "tracknumber" = none → s.track = 0) := by
  refine ⟨?_, ?_, ?_⟩
  · intro a b
    by_cases h1 : goToLower a.artist = goToLower b.artist
    · by_cases h2 : goToLower a.album = goToLower b.album
      · by_cases h3 : a.disc = b.disc
        · by_cases h4 : a.track = b.track
          · by_cases h5 : goToLower a.title = goToLower b.title
            · simp [byTagsLess, compareFold, tagKeyLt, h1, h2, h3, h4, h5, goStrLt_irrefl]
            · simp [byTagsLess, compareFold, tagKeyLt, h1, h2, h3, h4, h5, goStrLt_irrefl]
          · simp [byTagsLess, compareFold, tagKeyLt, h1, h2, h3, h4, goStrLt_irrefl]
        · simp [byTagsLess, compareFold, tagKeyLt, h1, h2, h3, goStrLt_irrefl]
      · simp [byTagsLess, compareFold, tagKeyLt, h1, h2, goStrLt_irrefl]
    · simp [byTagsLess, compareFold, tagKeyLt, h1]
  · intro t p sOld fid mt s hok hd hdn
    rw [(newSongGo_ok_fields hok).1, hd, hdn]
    simpa using valInt_empty
  · intro t p sOld fid mt s hok hd hdn
    rw [(newSongGo_ok_fields hok).2, hd, hdn]
    simpa using valInt_empty

/-- Witness for c5_sort_order at concrete inputs. -/
theorem c5_sort_order_witness :
    ((byTagsLess c5SongA c5SongB = true) ↔ tagKeyLt c5SongA c5SongB) ∧
    (newSongGo probeOutPlain "p.mp3" none (some "aaaaaaaa") 5 = GoResult.ok plainSong ∧
     tval probeOutPlain "disc" = none ∧ tval probeOutPlain "discnumber" = none ∧
     plainSong.disc = 0) ∧
    (tval probeOutPlain "track" = none ∧ tval probeOutPlain "tracknumber" = none ∧
     plainSong.track = 0) :=
  ⟨c5_sort_order.1 c5SongA c5SongB,
   ⟨by decide, by decide, by decide,
    c5_sort_order.2.1 probeOutPlain "p.mp3" none (some "aaaaaaaa") 5 plainSong
      (by decide) (by decide) (by decide)⟩,
   ⟨by decide, by decide,
    c5_sort_order.2.2 probeOutPlain "p.mp3" none (some "aaaaaaaa") 5 plainSong
      (by decide) (by decide) (by decide)⟩⟩

/-! ### Claim C4: the identifier allocator -/

theorem genIDAux_some (r : Nat → Option (Fin idSpan)) :
    ∀ (k i : Nat) (cs : List Char), genIDAux r i k = some cs →
      cs.length = k ∧
      ∀ j, j < k → ∃ m, r (i + j) = some m ∧
        cs.get? j = some (Char.ofNat (idLeastByte + m.val)) := by
  intro k
  induction k with
  | zero =>
    intro i cs h
    simp only [genIDAux, Option.some.injEq] at h
    subst h
    exact ⟨rfl, by omega⟩
  | succ k ih =>
    intro i cs h
    simp only [genIDAux] at h
    rcases hr : r i with _ | n <;> rw [hr] at h
    · exact absurd h (by simp)
    · rcases hg : genIDAux r (i + 1) k with _ | cs0 <;> rw [hg] at h
      · exact absurd h (by simp)
      · simp only [Option.some.injEq] at h
        subst h
        obtain ⟨hlen, hch⟩ := ih (i + 1) cs0 hg
        refine ⟨by simp [hlen], ?_⟩
        intro j hj
        cases j with
        | zero => exact ⟨n, by simpa using hr, rfl⟩
        | succ j0 =>
          obtain ⟨m, hm, hc⟩ := hch j0 (by omega)
          refine ⟨m, ?_, by simpa using hc⟩
          have he : i + (j0 + 1) = i + 1 + j0 := by omega
          rw [he]
          exact hm

theorem genIDAux_isSome (r : Nat → Option (Fin idSpan)) :
    ∀ (k i : Nat), (genIDAux r i k).isSome = true ↔
      ∀ j, j < k → (r (i + j)).isSome = true := by
  intro k
  induction k with
  | zero =>
    intro i
    simp [genIDAux]
  | succ k ih =>
    intro i
    constructor
    · intro h j hj
      simp only [genIDAux] at h
      rcases hr : r i with _ | n <;> rw [hr] at h
      · simp at h
      · rcases hg : genIDAux r (i + 1) k with _ | cs <;> rw [hg] at h
        · simp at h
        · cases j with
          | zero => simp [hr]
          | succ j0 =>
            have h2 := (ih (i + 1)).mp (by simp [hg]) j0 (by omega)
            have he : i + (j0 + 1) = i + 1 + j0 := by omega
            rw [he]
            exact h2
    · intro h
      simp only [genIDAux]
      rcases hr : r i with _ | n
      · have h0 := h 0 (by omega)
        rw [Nat.add_zero, hr] at h0
        simp at h0
      · rcases hg : genIDAux r (i + 1) k with _ | cs
        · have h2 : ∀ j, j < k → (r (i + 1 + j)).isSome = true := by
            intro j hj
            have h3 := h (j + 1) (by omega)
            have he : i + (j + 1) = i + 1 + j := by omega
            rwa [he] at h3
          have h4 := (ih (i + 1)).mpr h2
          rw [hg] at h4
          simp at h4
        · simp

/-- Claim C4 counterexample: no entropy stream (every draw lies in
[0, idGreatestByte - idLeastByte), the contract of rand.Int with bound
'z'-'a' = 25) can make genID produce an id containing 'z'.  The claimed
alphabet "lowercase ASCII letters a through z" is therefore wrong: the
draw bound excludes the greatest letter, so ids are drawn from a..y
only. -/
theorem c4_z_unreachable_counterexample :
    ¬ ∃ (r : Nat → Option (Fin idSpan)) (out : String),
        genID songIDLength r = some out ∧ 'z' ∈ out.data := by
  rintro ⟨r, out, hg, hz⟩
  rcases hga : genIDAux r 0 songIDLength with _ | cs <;> rw [genID, hga] at hg
  · simp at hg
  · simp only [Option.map_some', Option.some.injEq] at hg
    have hdata : out.data = cs := by rw [← hg]
    rw [hdata] at hz
    obtain ⟨hlen, hch⟩ := genIDAux_some r songIDLength 0 cs hga
    obtain ⟨j, hj⟩ := List.get?_of_mem hz
    have hjlt : j < songIDLength := by
      rw [← hlen]
      exact (List.get?_eq_some.mp hj).1
    obtain ⟨m, hm, hc⟩ := hch j hjlt
    rw [Nat.zero_add] at hm
    rw [hj] at hc
    have hce : 'z' = Char.ofNat (idLeastByte + m.val) := by
      exact Option.some.inj hc
    have hmlt : m.val < idSpan := m.isLt
    have htn : (Char.ofNat (idLeastByte + m.val)).toNat = idLeastByte + m.val := by
      apply charOfNat_toNat
      unfold idSpan idLeastByte idGreatestByte at *
      omega
    have hzn : ('z').toNat = 122 := by decide
    rw [← hce] at htn
    unfold idSpan idLeastByte idGreatestByte at *
    omega

/-- Claim C4 (amended): genID length r, when it succeeds, returns a string
of exactly length characters; each character is idLeastByte + the
corresponding draw, so it lies in the half-open range a..y ('z' excluded,
since the rand.Int bound is idGreatestByte - idLeastByte); the i-th
character depends only on the i-th independent draw; and genID succeeds
exactly when every needed draw of the entropy source succeeds, an entropy
failure being propagated, not retried. -/
theorem c4_genid_contract :
    (∀ len r out, genID len r = some out →
      out.length = len ∧
      (∀ c, c ∈ out.data → idLeastByte ≤ c.toNat ∧ c.toNat < idGreatestByte) ∧
      (∀ j, j < len → ∃ m, r j = some m ∧
        out.data.get? j = some (Char.ofNat (idLeastByte + m.val)))) ∧
    (∀ len r, (genID len r).isSome = true ↔ ∀ j, j < len → (r j).isSome = true) := by
  constructor
  · intro len r out hg
    rcases hga : genIDAux r 0 len with _ | cs <;> rw [genID, hga] at hg
    · simp at hg
    · simp only [Option.map_some', Option.some.injEq] at hg
      have hdata : out.data = cs := by rw [← hg]
      obtain ⟨hlen, hch⟩ := genIDAux_some r len 0 cs hga
      have hch0 : ∀ j, j < len → ∃ m, r j = some m ∧
          cs.get? j = some (Char.ofNat (idLeastByte + m.val)) := by
        intro j hj
        obtain ⟨m, hm, hc⟩ := hch j hj
        rw [Nat.zero_add] at hm
        exact ⟨m, hm, hc⟩
      refine ⟨?_, ?_, ?_⟩
      · rw [← hg]
        simpa [String.length] using hlen
      · intro c hc
        rw [hdata] at hc
        obtain ⟨j, hj⟩ := List.get?_of_mem hc
        have hjlt : j < len := by
          rw [← hlen]
          exact (List.get?_eq_some.mp hj).1
        obtain ⟨m, hm, hcj⟩ := hch0 j hjlt
        rw [hj] at hcj
        have hce : c = Char.ofNat (idLeastByte + m.val) := Option.some.inj hcj
        have hmlt : m.val < idSpan := m.isLt
        have htn : (Char.ofNat (idLeastByte + m.val)).toNat = idLeastByte + m.val := by
          apply charOfNat_toNat
          unfold idSpan idLeastByte idGreatestByte at *
          omega
        rw [hce, htn]
        unfold idSpan idLeastByte idGreatestByte at *
        omega
      · intro j hj
        rw [hdata]
        exact hch0 j hj
  · intro len r
    have h := genIDAux_isSome r len 0
    simp only [Nat.zero_add] at h
    rw [genID]
    rcases hga : genIDAux r 0 len with _ | cs <;> rw [hga] at h <;> simpa using h

/-- Witness for c4_genid_contract at concrete inputs. -/
theorem c4_genid_contract_witness :
    (genID 2 entropyZero = some "aa" ∧ "aa".length = 2) ∧
    ((genID songIDLength entropyDead).isSome = true ↔
      ∀ j, j < songIDLength → ((entropyDead j).isSome = true)) :=
  ⟨⟨by decide, (c4_genid_contract.1 2 entropyZero "aa" (by decide)).1⟩,
   c4_genid_contract.2 songIDLength entropyDead⟩

/-! ### Walk and reload lemmas -/

theorem buildSong_path (byPath : List (String × Song)) (supply : Nat → String) (ctr : Nat)
    (f : String × Nat) (meta : Meta) : (buildSong byPath supply ctr f meta).1.path = f.1 := by
  unfold buildSong
  rcases alookup f.1 byPath with _ | sOld <;> rfl

theorem buildSong_time (byPath : List (String × Song)) (supply : Nat → String) (ctr : Nat)
    (f : String × Nat) (meta : Meta) : (buildSong byPath supply ctr f meta).1.time = f.2 := by
  unfold buildSong
  rcases alookup f.1 byPath with _ | sOld <;> rfl

/-- A stable file leaves the walk state untouched. -/
theorem walkStep_eq_of_fileOK (probe : String → Option Meta) (supply : Nat → String)
    (st : RState) (f : String × Nat) (h : fileOK probe f st.byPath) :
    walkStep probe supply st f = st := by
  unfold walkStep
  rcases h with ⟨s, hs, hrec | hpr⟩ | ⟨hn, hpr⟩
  · have hsr : shouldReload st.byPath f = false := by
      unfold shouldReload
      rw [hs]
      simp
      omega
    rw [hsr]
    simp
  · by_cases hsr : shouldReload st.byPath f
    · rw [if_pos hsr, hpr]
    · rw [if_neg hsr]
  · have hsr : shouldReload st.byPath f = true := by
      unfold shouldReload
      rw [hn]
    rw [hsr, hpr]
    simp

/-- A walk over a stable index is the identity. -/
theorem walkAll_eq_of_stable (probe : String → Option Meta) (supply : Nat → String) :
    ∀ (fs : List (String × Nat)) (st : RState), Stable probe fs st.byPath →
      fs.foldl (walkStep probe supply) st = st := by
  intro fs
  induction fs with
  | nil => intro st _; rfl
  | cons g rest ih =>
    intro st hst
    have h1 : walkStep probe supply st g = st :=
      walkStep_eq_of_fileOK probe supply st g (hst g (List.mem_cons_self _ _))
    simp only [List.foldl_cons, h1]
    exact ih st (fun f hf => hst f (List.mem_cons_of_mem _ hf))

/-- walkStep only writes the walked file's key into the path map. -/
theorem walkStep_byPath_other (probe : String → Option Meta) (supply : Nat → String)
    (st : RState) (f : String × Nat) {p : String} (hne : p ≠ f.1) :
    alookup p (walkStep probe supply st f).byPath = alookup p st.byPath := by
  unfold walkStep
  by_cases hsr : shouldReload st.byPath f
  · rw [if_pos hsr]
    rcases probe f.1 with _ | meta
    · rfl
    · exact alookup_ainsert_ne _ _ hne
  · rw [if_neg hsr]

theorem walkAll_byPath_other (probe : String → Option Meta) (supply : Nat → String) :
    ∀ (fs : List (String × Nat)) (st : RState) (p : String), p ∉ fs.map Prod.fst →
      alookup p ((fs.foldl (walkStep probe supply) st)).byPath = alookup p st.byPath := by
  intro fs
  induction fs with
  | nil => intro st p _; rfl
  | cons g rest ih =>
    intro st p hp
    simp only [List.map_cons, List.mem_cons] at hp
    push_neg at hp
    simp only [List.foldl_cons]
    rw [ih (walkStep probe supply st g) p hp.2]
    exact walkStep_byPath_other probe supply st g hp.1

/-- After its own step, a walked file satisfies fileOK. -/
theorem walkStep_fileOK_self (probe : String → Option Meta) (supply : Nat → String)
    (st : RState) (f : String × Nat) :
    fileOK probe f (walkStep probe supply st f).byPath := by
  unfold walkStep
  by_cases hsr : shouldReload st.byPath f
  · rw [if_pos hsr]
    rcases hpr : probe f.1 with _ | meta
    · rcases hlk : alookup f.1 st.byPath with _ | s
      · exact Or.inr ⟨hlk, hpr⟩
      · exact Or.inl ⟨s, hlk, Or.inr hpr⟩
    · refine Or.inl ⟨(buildSong st.byPath supply st.ctr f meta).1, ?_, Or.inl ?_⟩
      · exact alookup_ainsert_self _ _ _
      · rw [buildSong_time]
  · rw [if_neg hsr]
    unfold shouldReload at hsr
    rcases hlk : alookup f.1 st.byPath with _ | s <;> rw [hlk] at hsr
    · simp at hsr
    · simp only [decide_eq_true_eq] at hsr
      exact Or.inl ⟨s, hlk, Or.inl (by omega)⟩

/-- fileOK depends only on the file's own entry. -/
theorem fileOK_congr (probe : String → Option Meta) (f : String × Nat)
    {l1 l2 : List (String × Song)} (h : alookup f.1 l2 = alookup f.1 l1)
    (hok : fileOK probe f l1) : fileOK probe f l2 := by
  rcases hok with ⟨s, hs, hc⟩ | ⟨hn, hpr⟩
  · exact Or.inl ⟨s, by rw [h, hs], hc⟩
  · exact Or.inr ⟨by rw [h, hn], hpr⟩

/-- Every walked file satisfies fileOK of the final walk state. -/
theorem walkAll_fileOK (probe : String → Option Meta) (supply : Nat → String) :
    ∀ (fs : List (String × Nat)) (st : RState) (f : String × Nat),
      (fs.map Prod.fst).Nodup → f ∈ fs →
      fileOK probe f ((fs.foldl (walkStep probe supply) st)).byPath := by
  intro fs
  induction fs with
  | nil => intro st f _ hf; simp at hf
  | cons g rest ih =>
    intro st f hnd hf
    simp only [List.map_cons, List.nodup_cons] at hnd
    rcases List.mem_cons.mp hf with hfg | hfr
    · subst hfg
      simp only [List.foldl_cons]
      refine fileOK_congr probe f ?_ (walkStep_fileOK_self probe supply st f)
      exact walkAll_byPath_other probe supply rest (walkStep probe supply st f) f.1 hnd.1
    · simp only [List.foldl_cons]
      exact ih (walkStep probe supply st g) f hnd.2 hfr

theorem dropMissing_byPath_mem (fsPaths : List String) (st : RState) {p : String}
    (hp : fsPaths.contains p = true) :
    alookup p (dropMissing fsPaths st).byPath = alookup p st.byPath :=
  alookup_filter_pos st.byPath hp

theorem dropMissing_byPath_not_mem (fsPaths : List String) (st : RState) {p : String}
    (hp : fsPaths.contains p = false) :
    alookup p (dropMissing fsPaths st).byPath = none :=
  alookup_filter_neg st.byPath hp

theorem dropMissing_covered (fsPaths : List String) (st : RState) :
    ∀ e ∈ (dropMissing fsPaths st).byPath, fsPaths.contains e.1 = true := by
  intro e he
  exact (List.mem_filter.mp he).2

/-- When every entry's file still exists, the cleanup loop does nothing. -/
theorem dropMissing_eq_of_covered (fsPaths : List String) (st : RState)
    (h : ∀ e ∈ st.byPath, fsPaths.contains e.1 = true) :
    dropMissing fsPaths st = st := by
  have hmiss : st.byPath.filter (fun e => !(fsPaths.contains e.1)) = [] := by
    rw [List.filter_eq_nil_iff]
    intro e he
    simpa using h e he
  have hkeep : st.byPath.filter (fun e => fsPaths.contains e.1) = st.byPath := by
    rw [List.filter_eq_self]
    intro e he
    exact h e he
  unfold dropMissing
  rw [hmiss, hkeep]
  rfl

/-- The reconciled index is stable: every walked file is either recorded
at least as new as on disk or fails probing. -/
theorem reload_stable (probe : String → Option Meta) (supply : Nat → String)
    (fs : List (String × Nat)) (st : RState) (hnd : (fs.map Prod.fst).Nodup) :
    Stable probe fs ((reload probe supply fs st).1).byPath := by
  intro f hf
  have hcont : (fs.map Prod.fst).contains f.1 = true := by
    rw [List.contains_eq_any_beq]
    rw [List.any_eq_true]
    exact ⟨f.1, List.mem_map_of_mem Prod.fst hf, by simp⟩
  refine fileOK_congr probe f ?_ (walkAll_fileOK probe supply fs st f hnd hf)
  exact dropMissing_byPath_mem (fs.map Prod.fst) (fs.foldl (walkStep probe supply) st) hcont

theorem reload_covered (probe : String → Option Meta) (supply : Nat → String)
    (fs : List (String × Nat)) (st : RState) :
    ∀ e ∈ ((reload probe supply fs st).1).byPath, (fs.map Prod.fst).contains e.1 = true :=
  dropMissing_covered (fs.map Prod.fst) (fs.foldl (walkStep probe supply) st)

theorem reload_twice (probe : String → Option Meta) (supply supply2 : Nat → String)
    (fs : List (String × Nat)) (st : RState) (hnd : (fs.map Prod.fst).Nodup) :
    reload probe supply2 fs (reload probe supply fs st).1 = reload probe supply fs st := by
  have hwalk := walkAll_eq_of_stable probe supply2 fs (reload probe supply fs st).1
    (reload_stable probe supply fs st hnd)
  have hdrop := dropMissing_eq_of_covered (fs.map Prod.fst) (reload probe supply fs st).1
    (reload_covered probe supply fs st)
  show (dropMissing (fs.map Prod.fst)
          (fs.foldl (walkStep probe supply2) (reload probe supply fs st).1),
        sortSongs ((dropMissing (fs.map Prod.fst)
          (fs.foldl (walkStep probe supply2) (reload probe supply fs st).1)).byPath.map
            Prod.snd)) = reload probe supply fs st
  rw [hwalk, hdrop]
  rfl

/-! ### Claim C6: the incremental re-probe decision -/

/-- Claim C6: during reconciliation a walked file is skipped (probe
subprocess not launched and the state left untouched) exactly when its
path already has a Track whose recorded time is not older than the
file's modification time; every other walked file (new path, or a file
newer than recorded) is probed.  The Boolean component of walkStepP is
whether l.newSong was invoked; the last conjunct ties the instrumented
step to the walkStep used by reload. -/
theorem c6_skip_decision :
    (∀ (probe : String → Option Meta) (supply : Nat → String) (st : RState) (f : String × Nat),
      (walkStepP probe supply st f).2 = false ↔
        ∃ s, alookup f.1 st.byPath = some s ∧ f.2 ≤ s.time) ∧
    (∀ (probe : String → Option Meta) (supply : Nat → String) (st : RState) (f : String × Nat),
      (walkStepP probe supply st f).2 = false → (walkStepP probe supply st f).1 = st) ∧
    (∀ (probe : String → Option Meta) (supply : Nat → String) (st : RState) (f : String × Nat),
      (walkStepP probe supply st f).1 = walkStep probe supply st f) := by
  refine ⟨?_, ?_, fun _ _ _ _ => rfl⟩
  · intro probe supply st f
    show shouldReload st.byPath f = false ↔ _
    unfold shouldReload
    rcases hlk : alookup f.1 st.byPath with _ | s
    · simp
    · simp [Nat.not_lt]
  · intro probe supply st f h
    have hsr : shouldReload st.byPath f = false := h
    show walkStep probe supply st f = st
    unfold walkStep
    rw [hsr]
    simp

/-- Witness for c6_skip_decision: a file recorded at time 9 and unchanged
on disk (mtime 9) is skipped and leaves the state untouched. -/
theorem c6_skip_decision_witness :
    (walkStepP probeAlways supplyConst c6State ("keep.mp3", 9)).2 = false ∧
    (walkStepP probeAlways supplyConst c6State ("keep.mp3", 9)).1 = c6State :=
  ⟨by decide,
   c6_skip_decision.2.1 probeAlways supplyConst c6State ("keep.mp3", 9) (by decide)⟩

/-! ### Claim C7: identifier stability -/

/-- Claim C7: reconciling twice with no filesystem change between the runs
is the identity: the entire second reload result (both mappings, the
artifact directory, the id counter and the sorted listing) equals the
first, in particular every path keeps its id; moreover a re-probed known
path reuses the prior id without consuming a fresh draw, and a fresh id
is taken from the supply only for a previously unknown path. -/
theorem c7_identifier_stability :
    (∀ (probe : String → Option Meta) (supply supply2 : Nat → String)
       (fs : List (String × Nat)) (st : RState), (fs.map Prod.fst).Nodup →
      reload probe supply2 fs (reload probe supply fs st).1 = reload probe supply fs st) ∧
    (∀ (probe : String → Option Meta) (supply supply2 : Nat → String)
       (fs : List (String × Nat)) (st : RState) (p : String), (fs.map Prod.fst).Nodup →
      (alookup p (reload probe supply2 fs (reload probe supply fs st).1).1.byPath).map Song.id =
      (alookup p (reload probe supply fs st).1.byPath).map Song.id) ∧
    (∀ (byPath : List (String × Song)) (supply : Nat → String) (ctr : Nat)
       (f : String × Nat) (meta : Meta) (s0 : Song), alookup f.1 byPath = some s0 →
      (buildSong byPath supply ctr f meta).1.id = s0.id ∧
      (buildSong byPath supply ctr f meta).2 = ctr) ∧
    (∀ (byPath : List (String × Song)) (supply : Nat → String) (ctr : Nat)
       (f : String × Nat) (meta : Meta), alookup f.1 byPath = none →
      (buildSong byPath supply ctr f meta).1.id = supply ctr ∧
      (buildSong byPath supply ctr f meta).2 = ctr + 1) := by
  refine ⟨fun probe supply supply2 fs st hnd => reload_twice probe supply supply2 fs st hnd,
    ?_, ?_, ?_⟩
  · intro probe supply supply2 fs st p hnd
    rw [reload_twice probe supply supply2 fs st hnd]
  · intro byPath supply ctr f meta s0 h
    unfold buildSong
    rw [h]
    exact ⟨rfl, rfl⟩
  · intro byPath supply ctr f meta h
    unfold buildSong
    rw [h]
    exact ⟨rfl, rfl⟩

/-- Witness for c7_identifier_stability on a concrete two-file library. -/
theorem c7_identifier_stability_witness :
    (c9FS.map Prod.fst).Nodup ∧
    reload probeAlways supplyConst c9FS (reload probeAlways supplyConst c9FS emptyState).1 =
      reload probeAlways supplyConst c9FS emptyState :=
  ⟨by decide,
   c7_identifier_stability.1 probeAlways supplyConst supplyConst c9FS emptyState (by decide)⟩

/-! ### Erasure and artifact-deletion lemmas -/

theorem foldl_aerase_preserve_none {k : String} :
    ∀ (ms : List (String × Song)) (l : List (String × Song)), alookup k l = none →
      alookup k (ms.foldl (fun m e => aerase e.2.id m) l) = none := by
  intro ms
  induction ms with
  | nil => intro l h; exact h
  | cons e0 rest ih =>
    intro l h
    exact ih (aerase e0.2.id l) (alookup_aerase_none h)

theorem foldl_aerase_nodup :
    ∀ (ms : List (String × Song)) (l : List (String × Song)), (akeys l).Nodup →
      (akeys (ms.foldl (fun m e => aerase e.2.id m) l)).Nodup := by
  intro ms
  induction ms with
  | nil => intro l h; exact h
  | cons e0 rest ih =>
    intro l h
    exact ih (aerase e0.2.id l) (nodup_akeys_aerase h)

theorem foldl_aerase_entries_none {k : String} :
    ∀ (ms : List (String × Song)) (l : List (String × Song)), (akeys l).Nodup →
      (∃ e ∈ ms, e.2.id = k) →
      alookup k (ms.foldl (fun m e => aerase e.2.id m) l) = none := by
  intro ms
  induction ms with
  | nil =>
    intro l _ h
    simp at h
  | cons e0 rest ih =>
    intro l hnd h
    by_cases h0 : e0.2.id = k
    · have hnone : alookup k (aerase e0.2.id l) = none := by
        rw [h0]
        exact alookup_aerase_self hnd
      exact foldl_aerase_preserve_none rest (aerase e0.2.id l) hnone
    · rcases h with ⟨e, he, hek⟩
      rcases List.mem_cons.mp he with he0 | her
      · exact absurd (he0 ▸ hek) h0
      · exact ih (aerase e0.2.id l) (nodup_akeys_aerase hnd) ⟨e, her, hek⟩

theorem foldl_aerase_other {k : String} :
    ∀ (ms : List (String × Song)) (l : List (String × Song)), (∀ e ∈ ms, e.2.id ≠ k) →
      alookup k (ms.foldl (fun m e => aerase e.2.id m) l) = alookup k l := by
  intro ms
  induction ms with
  | nil => intro l _; rfl
  | cons e0 rest ih =>
    intro l h
    rw [List.foldl_cons,
      ih (aerase e0.2.id l) (fun e he => h e (List.mem_cons_of_mem _ he))]
    exact alookup_aerase_ne l (fun hk => h e0 (List.mem_cons_self _ _) hk.symm)

theorem foldl_aerase_some_inv {k : String} {v : Song} :
    ∀ (ms : List (String × Song)) (l : List (String × Song)), (akeys l).Nodup →
      alookup k (ms.foldl (fun m e => aerase e.2.id m) l) = some v →
      alookup k l = some v := by
  intro ms
  induction ms with
  | nil => intro l _ h; exact h
  | cons e0 rest ih =>
    intro l hnd h
    have h2 := ih (aerase e0.2.id l) (nodup_akeys_aerase hnd) h
    exact alookup_of_mem hnd (mem_aerase (mem_of_alookup h2))

theorem mem_removeFile_sub {x : String} {a : List String} {p : String}
    (h : x ∈ removeFile a p) : x ∈ a :=
  (List.mem_filter.mp h).1

theorem not_mem_removeFile_self (a : List String) (p : String) : p ∉ removeFile a p := by
  intro h
  have h2 := (List.mem_filter.mp h).2
  simp at h2

theorem removeFile_preserve_not_mem {x : String} {a : List String} (h : x ∉ a)
    (p : String) : x ∉ removeFile a p :=
  fun hx => h (mem_removeFile_sub hx)

theorem deleteStream_sub {x : String} {s : Song} {a : List String}
    (h : x ∈ deleteStream s a) : x ∈ a := by
  have h2 : x ∈ removeFile (removeFile a (streamPath s ".opus")) (streamPath s ".mp3") := h
  exact mem_removeFile_sub (mem_removeFile_sub h2)

theorem deleteStream_kills (s : Song) (a : List String) :
    ∀ ext, ext ∈ afmts.map Prod.fst → streamPath s ext ∉ deleteStream s a := by
  intro ext hext
  have hcase : ext = ".opus" ∨ ext = ".mp3" := by simpa [afmts] using hext
  show streamPath s ext ∉ removeFile (removeFile a (streamPath s ".opus")) (streamPath s ".mp3")
  rcases hcase with hc | hc <;> rw [hc]
  · exact removeFile_preserve_not_mem (not_mem_removeFile_self a _) _
  · exact not_mem_removeFile_self _ _

theorem foldl_deleteStream_preserve_not_mem {x : String} :
    ∀ (ms : List (String × Song)) (a : List String), x ∉ a →
      x ∉ ms.foldl (fun acc e => deleteStream e.2 acc) a := by
  intro ms
  induction ms with
  | nil => intro a h; exact h
  | cons e0 rest ih =>
    intro a h
    exact ih (deleteStream e0.2 a) (fun hx => h (deleteStream_sub hx))

theorem foldl_deleteStream_kills {s : Song} {ext : String} (hext : ext ∈ afmts.map Prod.fst) :
    ∀ (ms : List (String × Song)) (a : List String), (∃ e ∈ ms, e.2 = s) →
      streamPath s ext ∉ ms.foldl (fun acc e => deleteStream e.2 acc) a := by
  intro ms
  induction ms with
  | nil =>
    intro a h
    simp at h
  | cons e0 rest ih =>
    intro a h
    by_cases h0 : e0.2 = s
    · refine foldl_deleteStream_preserve_not_mem rest (deleteStream e0.2 a) ?_
      rw [h0]
      exact deleteStream_kills s a ext hext
    · rcases h with ⟨e, he, hes⟩
      rcases List.mem_cons.mp he with he0 | her
      · exact absurd (he0 ▸ hes) h0
      · exact ih (deleteStream e0.2 a) ⟨e, her, hes⟩

theorem walkStep_byID_nodup (probe : String → Option Meta) (supply : Nat → String)
    (st : RState) (f : String × Nat) (h : (akeys st.byID).Nodup) :
    (akeys (walkStep probe supply st f).byID).Nodup := by
  unfold walkStep
  by_cases hsr : shouldReload st.byPath f
  · rw [if_pos hsr]
    rcases probe f.1 with _ | meta
    · exact h
    · exact nodup_akeys_ainsert _ h
  · rw [if_neg hsr]
    exact h

theorem walkAll_byID_nodup (probe : String → Option Meta) (supply : Nat → String) :
    ∀ (fs : List (String × Nat)) (st : RState), (akeys st.byID).Nodup →
      (akeys ((fs.foldl (walkStep probe supply) st)).byID).Nodup := by
  intro fs
  induction fs with
  | nil => intro st h; exact h
  | cons g rest ih =>
    intro st h
    exact ih (walkStep probe supply st g) (walkStep_byID_nodup probe supply st g h)

/-! ### Claim C8: deletion cleanup -/

/-- Claim C8: after a reconciliation, a path of the prior index whose
backing file is absent from the walked filesystem is gone from the
path-keyed mapping, its Track's id is gone from the id-keyed mapping,
and the cached artifact for every supported format extension has been
deleted from the artifact directory. -/
theorem c8_deletion_cleanup (probe : String → Option Meta) (supply : Nat → String)
    (fs : List (String × Nat)) (st : RState) (p : String) (s : Song)
    (hndI : (akeys st.byID).Nodup)
    (hlk : alookup p st.byPath = some s) (habs : p ∉ fs.map Prod.fst) :
    alookup p ((reload probe supply fs st).1).byPath = none ∧
    alookup s.id ((reload probe supply fs st).1).byID = none ∧
    (∀ ext, ext ∈ afmts.map Prod.fst →
      streamPath s ext ∉ ((reload probe supply fs st).1).arts) := by
  have hcont : (fs.map Prod.fst).contains p = false := by simpa using habs
  have hlk1 : alookup p ((fs.foldl (walkStep probe supply) st)).byPath = some s := by
    rw [walkAll_byPath_other probe supply fs st p habs]
    exact hlk
  have hmem1 : (p, s) ∈ ((fs.foldl (walkStep probe supply) st)).byPath :=
    mem_of_alookup hlk1
  have hmiss : (p, s) ∈ ((fs.foldl (walkStep probe supply) st)).byPath.filter
      (fun e => !((fs.map Prod.fst).contains e.1)) :=
    List.mem_filter.mpr ⟨hmem1, by
      show (!((fs.map Prod.fst).contains p)) = true
      rw [hcont]
      rfl⟩
  refine ⟨?_, ?_, ?_⟩
  · exact dropMissing_byPath_not_mem (fs.map Prod.fst) _ hcont
  · exact foldl_aerase_entries_none _ _
      (walkAll_byID_nodup probe supply fs st hndI) ⟨(p, s), hmiss, rfl⟩
  · intro ext hext
    exact foldl_deleteStream_kills hext _ _ ⟨(p, s), hmiss, rfl⟩

/-- Witness for c8_deletion_cleanup: reconciling c8State against a
filesystem that no longer holds gone.mp3 removes the track from both
mappings and deletes both cached artifacts. -/
theorem c8_deletion_cleanup_witness :
    ((akeys c8State.byID).Nodup ∧ alookup "gone.mp3" c8State.byPath = some c8Song ∧
      "gone.mp3" ∉ c9FS.map Prod.fst) ∧
    (alookup "gone.mp3" ((reload probeAlways supplyConst c9FS c8State).1).byPath = none ∧
     alookup c8Song.id ((reload probeAlways supplyConst c9FS c8State).1).byID = none ∧
     (∀ ext, ext ∈ afmts.map Prod.fst →
       streamPath c8Song ext ∉ ((reload probeAlways supplyConst c9FS c8State).1).arts)) :=
  ⟨⟨by decide, by decide, by decide⟩,
   c8_deletion_cleanup probeAlways supplyConst c9FS c8State "gone.mp3" c8Song
     (by decide) (by decide) (by decide)⟩

/-! ### Claim C9: the id/path bijection -/

theorem buildSong_id_reuse {byPath : List (String × Song)} {supply : Nat → String}
    {ctr : Nat} {f : String × Nat} {meta : Meta} {s0 : Song}
    (h : alookup f.1 byPath = some s0) :
    (buildSong byPath supply ctr f meta).1.id = s0.id ∧
    (buildSong byPath supply ctr f meta).2 = ctr := by
  unfold buildSong
  rw [h]
  exact ⟨rfl, rfl⟩

theorem buildSong_id_fresh {byPath : List (String × Song)} {supply : Nat → String}
    {ctr : Nat} {f : String × Nat} {meta : Meta}
    (h : alookup f.1 byPath = none) :
    (buildSong byPath supply ctr f meta).1.id = supply ctr ∧
    (buildSong byPath supply ctr f meta).2 = ctr + 1 := by
  unfold buildSong
  rw [h]
  exact ⟨rfl, rfl⟩

/-- Inserting a song into both maps keeps them in bijection, provided its
id clashes with no other path's id and the entry it overwrites (if any)
carried the same id. -/
theorem invPair_update {byPath byID : List (String × Song)} (hip : InvPair byPath byID)
    (s : Song)
    (hid : ∀ q t, alookup q byPath = some t → q ≠ s.path → t.id ≠ s.id)
    (hpath : ∀ t, alookup s.path byPath = some t → t.id = s.id) :
    InvPair (ainsert s.path s byPath) (ainsert s.id s byID) := by
  obtain ⟨hnP, hnI, hfw, hbw⟩ := hip
  refine ⟨nodup_akeys_ainsert _ hnP, nodup_akeys_ainsert _ hnI, ?_, ?_⟩
  · intro p t hlt
    by_cases hp : p = s.path
    · subst hp
      rw [alookup_ainsert_self] at hlt
      obtain rfl : s = t := Option.some.inj hlt
      exact ⟨rfl, by rw [alookup_ainsert_self]⟩
    · rw [alookup_ainsert_ne _ _ hp] at hlt
      obtain ⟨hpp, hlid⟩ := hfw p t hlt
      have hne : t.id ≠ s.id := hid p t hlt hp
      exact ⟨hpp, by rw [alookup_ainsert_ne _ _ hne]; exact hlid⟩
  · intro i t hlt
    by_cases hi : i = s.id
    · subst hi
      rw [alookup_ainsert_self] at hlt
      obtain rfl : s = t := Option.some.inj hlt
      exact ⟨rfl, by rw [alookup_ainsert_self]⟩
    · rw [alookup_ainsert_ne _ _ hi] at hlt
      obtain ⟨hids, hlp⟩ := hbw i t hlt
      have hne : t.path ≠ s.path := by
        intro hps
        have h2 := hpath t (hps ▸ hlp)
        exact hi (by rw [← hids, h2])
      exact ⟨hids, by rw [alookup_ainsert_ne _ _ hne]; exact hlp⟩

theorem walkStep_inv (probe : String → Option Meta) (supply : Nat → String)
    (hinj : ∀ i j, supply i = supply j → i = j)
    (st : RState) (f : String × Nat)
    (hip : InvPair st.byPath st.byID) (hfr : WFresh supply st) :
    InvPair (walkStep probe supply st f).byPath (walkStep probe supply st f).byID ∧
    WFresh supply (walkStep probe supply st f) := by
  unfold walkStep
  by_cases hsr : shouldReload st.byPath f
  · rw [if_pos hsr]
    rcases hpr : probe f.1 with _ | meta
    · exact ⟨hip, hfr⟩
    · have hsp : (buildSong st.byPath supply st.ctr f meta).1.path = f.1 :=
        buildSong_path st.byPath supply st.ctr f meta
      rcases hlk : alookup f.1 st.byPath with _ | sOld
      · obtain ⟨hbid, hbc⟩ := @buildSong_id_fresh st.byPath supply st.ctr f meta hlk
        constructor
        · show InvPair
            (ainsert f.1 (buildSong st.byPath supply st.ctr f meta).1 st.byPath)
            (ainsert (buildSong st.byPath supply st.ctr f meta).1.id
              (buildSong st.byPath supply st.ctr f meta).1 st.byID)
          rw [← hsp]
          apply invPair_update ⟨hip.1, hip.2.1, hip.2.2.1, hip.2.2.2⟩
          · intro q t hq _
            rw [hbid]
            intro he
            exact hfr st.ctr q t hq (Nat.le_refl _) he.symm
          · intro t ht
            rw [hsp, hlk] at ht
            exact absurd ht (by simp)
        · intro i p t hp hi
          dsimp only at hp hi
          by_cases hpf : p = f.1
          · subst hpf
            rw [alookup_ainsert_self] at hp
            obtain rfl : (buildSong st.byPath supply st.ctr f meta).1 = t :=
              Option.some.inj hp
            rw [hbid]
            intro he
            have hie := hinj i st.ctr he
            rw [hbc] at hi
            omega
          · rw [alookup_ainsert_ne _ _ hpf] at hp
            rw [hbc] at hi
            exact hfr i p t hp (by omega)
      · obtain ⟨hbid, hbc⟩ := @buildSong_id_reuse st.byPath supply st.ctr f meta sOld hlk
        constructor
        · show InvPair
            (ainsert f.1 (buildSong st.byPath supply st.ctr f meta).1 st.byPath)
            (ainsert (buildSong st.byPath supply st.ctr f meta).1.id
              (buildSong st.byPath supply st.ctr f meta).1 st.byID)
          rw [← hsp]
          apply invPair_update ⟨hip.1, hip.2.1, hip.2.2.1, hip.2.2.2⟩
          · intro q t hq hqne
            rw [hsp] at hqne
            rw [hbid]
            intro he
            obtain ⟨htp, htl⟩ := hip.2.2.1 q t hq
            obtain ⟨hop, hol⟩ := hip.2.2.1 f.1 sOld hlk
            rw [he] at htl
            have hts : t = sOld := Option.some.inj (htl.symm.trans hol)
            exact hqne (by rw [← htp, hts, hop])
          · intro t ht
            rw [hsp, hlk] at ht
            obtain rfl : sOld = t := Option.some.inj ht
            rw [hbid]
        · intro i p t hp hi
          dsimp only at hp hi
          rw [hbc] at hi
          by_cases hpf : p = f.1
          · subst hpf
            rw [alookup_ainsert_self] at hp
            obtain rfl : (buildSong st.byPath supply st.ctr f meta).1 = t :=
              Option.some.inj hp
            rw [hbid]
            exact hfr i f.1 sOld hlk hi
          · rw [alookup_ainsert_ne _ _ hpf] at hp
            exact hfr i p t hp hi
  · rw [if_neg hsr]
    exact ⟨hip, hfr⟩

theorem walkAll_inv (probe : String → Option Meta) (supply : Nat → String)
    (hinj : ∀ i j, supply i = supply j → i = j) :
    ∀ (fs : List (String × Nat)) (st : RState),
      InvPair st.byPath st.byID → WFresh supply st →
      InvPair ((fs.foldl (walkStep probe supply) st)).byPath
        ((fs.foldl (walkStep probe supply) st)).byID ∧
      WFresh supply (fs.foldl (walkStep probe supply) st) := by
  intro fs
  induction fs with
  | nil => intro st hip hfr; exact ⟨hip, hfr⟩
  | cons g rest ih =>
    intro st hip hfr
    obtain ⟨hip2, hfr2⟩ := walkStep_inv probe supply hinj st g hip hfr
    exact ih (walkStep probe supply st g) hip2 hfr2

theorem dropMissing_inv (fsPaths : List String) (st : RState)
    (hip : InvPair st.byPath st.byID) :
    InvPair (dropMissing fsPaths st).byPath (dropMissing fsPaths st).byID := by
  obtain ⟨hnP, hnI, hfw, hbw⟩ := hip
  unfold dropMissing
  dsimp only
  refine ⟨?_, ?_, ?_, ?_⟩
  · show ((st.byPath.filter (fun e => fsPaths.contains e.1)).map Prod.fst).Nodup
    exact List.Nodup.sublist ((List.filter_sublist st.byPath).map Prod.fst) hnP
  · exact foldl_aerase_nodup _ _ hnI
  · intro p t hlt
    have hmem := mem_of_alookup hlt
    have hkeep := (List.mem_filter.mp hmem).2
    have hlt0 : alookup p st.byPath = some t :=
      alookup_of_mem hnP (List.mem_filter.mp hmem).1
    obtain ⟨htp, htl⟩ := hfw p t hlt0
    refine ⟨htp, ?_⟩
    rw [foldl_aerase_other _ _ ?_]
    · exact htl
    · intro e he
      have hemem := (List.mem_filter.mp he).1
      have hemiss := (List.mem_filter.mp he).2
      have helt : alookup e.1 st.byPath = some e.2 := by
        have he2 : (e.1, e.2) ∈ st.byPath := hemem
        exact alookup_of_mem hnP he2
      intro heq
      obtain ⟨hep, hel⟩ := hfw e.1 e.2 helt
      rw [heq] at hel
      have hets : e.2 = t := Option.some.inj (hel.symm.trans htl)
      have hep2 : e.1 = p := by rw [← hep, hets, htp]
      rw [hep2] at hemiss
      simp only [hkeep] at hemiss
      simp at hemiss
  · intro i t hlt
    have hlt0 : alookup i st.byID = some t := foldl_aerase_some_inv _ _ hnI hlt
    obtain ⟨hids, hlp⟩ := hbw i t hlt0
    have hkeep : fsPaths.contains t.path = true := by
      by_contra hnk
      have hnk2 : fsPaths.contains t.path = false := by
        cases h2 : fsPaths.contains t.path
        · rfl
        · exact absurd h2 hnk
      have hmiss : (t.path, t) ∈ st.byPath.filter (fun e => !(fsPaths.contains e.1)) := by
        refine List.mem_filter.mpr ⟨mem_of_alookup hlp, ?_⟩
        show (!(fsPaths.contains t.path)) = true
        rw [hnk2]
        rfl
      have hnone := foldl_aerase_entries_none _ _ hnI ⟨(t.path, t), hmiss, hids⟩
      rw [hnone] at hlt
      exact absurd hlt (by simp)
    refine ⟨hids, ?_⟩
    rw [alookup_filter_pos st.byPath hkeep]
    exact hlp

theorem supplyRep_inj : ∀ i j, supplyRep i = supplyRep j → i = j := by
  intro i j h
  have h2 : List.replicate i 'a' = List.replicate j 'a' := by
    have h3 := congrArg String.data h
    simpa [supplyRep] using h3
  have h4 := congrArg List.length h2
  simpa using h4

/-- Claim C9 counterexample: reloading an empty library over two files
when the entropy source yields the byte sequence for "aaaaaaaa" twice
(genID performs no collision check) leaves two distinct paths holding
the SAME id, and the id-keyed mapping with one entry against two in the
path-keyed mapping: the mappings are not in bijection, so the claimed
invariant fails on the code as written. -/
theorem c9_collision_counterexample :
    (alookup "one.mp3" ((reload probeAlways supplyConst c9FS emptyState).1).byPath).map Song.id =
      some "aaaaaaaa" ∧
    (alookup "two.mp3" ((reload probeAlways supplyConst c9FS emptyState).1).byPath).map Song.id =
      some "aaaaaaaa" ∧
    ("one.mp3" ≠ "two.mp3") ∧
    ((reload probeAlways supplyConst c9FS emptyState).1).byPath.length = 2 ∧
    ((reload probeAlways supplyConst c9FS emptyState).1).byID.length = 1 := by
  decide

/-- Claim C9 (amended): provided every freshly drawn id is distinct from
all other draws and from every id already in the index (which genID
makes only overwhelmingly probable, not certain), the two mappings are
in bijection after any sequence of reconciliations: the empty index is
in bijection, and one reload preserves the bijection. -/
theorem c9_bijection :
    InvPair emptyState.byPath emptyState.byID ∧
    (∀ (probe : String → Option Meta) (supply : Nat → String)
       (fs : List (String × Nat)) (st : RState),
      InvPair st.byPath st.byID →
      (∀ i j, supply i = supply j → i = j) →
      WFresh supply st →
      InvPair ((reload probe supply fs st).1).byPath ((reload probe supply fs st).1).byID) := by
  constructor
  · refine ⟨List.nodup_nil, List.nodup_nil, ?_, ?_⟩
    · intro p s h
      exact absurd h (by simp [emptyState])
    · intro i s h
      exact absurd h (by simp [emptyState])
  · intro probe supply fs st hip hinj hfr
    obtain ⟨hip2, _⟩ := walkAll_inv probe supply hinj fs st hip hfr
    exact dropMissing_inv (fs.map Prod.fst) _ hip2

/-- Witness for c9_bijection: an injective supply on the two-file library
keeps the reconciled mappings in bijection. -/
theorem c9_bijection_witness :
    InvPair ((reload probeAlways supplyRep c9FS emptyState).1).byPath
      ((reload probeAlways supplyRep c9FS emptyState).1).byID :=
  c9_bijection.2 probeAlways supplyRep c9FS emptyState c9_bijection.1 supplyRep_inj
    (fun i p s h _ => absurd h (by simp [emptyState]))

/-! ### Claim C1: the Encode dedup locking -/

theorem cinv_init (n : Nat) (dests : Fin n → String) (fs0 : String → Bool) :
    CInv (initC n dests fs0) := by
  constructor
  · intro t ht
    simp [initC, pcActive] at ht
  · intro t ht
    simp [initC] at ht

theorem cinv_step {n : Nat} {s s2 : CState n} (h : CInv s) (hs : EStep s s2) : CInv s2 := by
  obtain ⟨h1, h2⟩ := h
  cases hs with
  | lockG t hpc hg =>
    constructor
    · intro u hu
      dsimp only at hu ⊢
      by_cases hut : u = t
      · rw [hut]
      · rw [Function.update_noteq hut] at hu
        have h3 := h1 u hu
        rw [hg] at h3
        exact absurd h3 (by simp)
    · intro u hu
      dsimp only at hu ⊢
      by_cases hut : u = t
      · rw [hut, Function.update_same] at hu
        simp at hu
      · rw [Function.update_noteq hut] at hu
        exact h2 u hu
  | lockD t hpc hd =>
    constructor
    · intro u hu
      dsimp only at hu ⊢
      by_cases hut : u = t
      · rw [hut]
        exact h1 t (by rw [hpc]; trivial)
      · rw [Function.update_noteq hut] at hu
        exact h1 u hu
    · intro u hu
      dsimp only at hu ⊢
      by_cases hut : u = t
      · rw [hut, Function.update_same] at hu
        simp at hu
      · rw [Function.update_noteq hut] at hu
        exact h2 u hu
  | checkHit t hpc hfs =>
    constructor
    · intro u hu
      dsimp only at hu ⊢
      by_cases hut : u = t
      · rw [hut, Function.update_same] at hu
        simp [pcActive] at hu
      · rw [Function.update_noteq hut] at hu
        have h3 := h1 u hu
        have h4 := h1 t (by rw [hpc]; trivial)
        exact absurd (Option.some.inj (h3.symm.trans h4)) hut
    · intro u hu
      dsimp only at hu ⊢
      by_cases hut : u = t
      · rw [hut, Function.update_same] at hu
        simp at hu
      · rw [Function.update_noteq hut] at hu
        exact h2 u hu
  | checkMiss t hpc hfs =>
    constructor
    · intro u hu
      dsimp only at hu ⊢
      by_cases hut : u = t
      · rw [hut]
        exact h1 t (by rw [hpc]; trivial)
      · rw [Function.update_noteq hut] at hu
        exact h1 u hu
    · intro u hu
      dsimp only at hu ⊢
      by_cases hut : u = t
      · rw [hut]
        exact hfs
      · rw [Function.update_noteq hut] at hu
        exact h2 u hu
  | runOk t hpc =>
    constructor
    · intro u hu
      dsimp only at hu ⊢
      by_cases hut : u = t
      · rw [hut, Function.update_same] at hu
        simp [pcActive] at hu
      · rw [Function.update_noteq hut] at hu
        have h3 := h1 u hu
        have h4 := h1 t (by rw [hpc]; trivial)
        exact absurd (Option.some.inj (h3.symm.trans h4)) hut
    · intro u hu
      dsimp only at hu ⊢
      by_cases hut : u = t
      · rw [hut, Function.update_same] at hu
        simp at hu
      · rw [Function.update_noteq hut] at hu
        have h3 := h1 u (by rw [hu]; trivial)
        have h4 := h1 t (by rw [hpc]; trivial)
        exact absurd (Option.some.inj (h3.symm.trans h4)) hut
  | runFail t hpc =>
    constructor
    · intro u hu
      dsimp only at hu ⊢
      by_cases hut : u = t
      · rw [hut, Function.update_same] at hu
        simp [pcActive] at hu
      · rw [Function.update_noteq hut] at hu
        have h3 := h1 u hu
        have h4 := h1 t (by rw [hpc]; trivial)
        exact absurd (Option.some.inj (h3.symm.trans h4)) hut
    · intro u hu
      dsimp only at hu ⊢
      by_cases hut : u = t
      · rw [hut, Function.update_same] at hu
        simp at hu
      · rw [Function.update_noteq hut] at hu
        have h3 := h1 u (by rw [hu]; trivial)
        have h4 := h1 t (by rw [hpc]; trivial)
        exact absurd (Option.some.inj (h3.symm.trans h4)) hut

theorem cinv_reach {n : Nat} {dests : Fin n → String} {fs0 : String → Bool} {s : CState n}
    (h : EReach (initC n dests fs0) s) : CInv s := by
  induction h with
  | refl => exact cinv_init n dests fs0
  | tail _ hstep ih => exact cinv_step ih hstep

theorem ereach_cS3 : EReach cInit cS3 := by
  have h1 : EStep cInit cS1 := EStep.lockG cInit 0 rfl rfl
  have h2 : EStep cS1 cS2 := EStep.lockD cS1 0 rfl rfl
  have h3 : EStep cS2 cS3 := EStep.checkMiss cS2 0 rfl rfl
  exact Relation.ReflTransGen.head h1 (Relation.ReflTransGen.head h2
    (Relation.ReflTransGen.single h3))

/-- Claim C1 counterexample: a reachable state in which thread 0 is
running the encoder for artifact path a (pc = run) while holding the
Encoder-wide mutex (held by defer for the whole call), and thread 1 -
requesting a DIFFERENT artifact path b - is blocked: no transition of the
system moves thread 1 off its entry point.  This refutes the claim that
callers for different artifact paths never block each other and that
encoding holds no global lock. -/
theorem c1_blocking_counterexample :
    EReach cInit cS3 ∧
    cS3.dest 0 ≠ cS3.dest 1 ∧
    cS3.pc 0 = PC.run ∧ cS3.pc 1 = PC.start ∧
    (∀ s2, EStep cS3 s2 → s2.pc 1 = PC.start) := by
  refine ⟨ereach_cS3, by decide, by decide, by decide, ?_⟩
  intro s2 h
  have hnoacq : ∀ u : Fin 2, cS3.pc u ≠ PC.acqDest := by decide
  have hnochk : ∀ u : Fin 2, cS3.pc u ≠ PC.check := by decide
  have hrun0 : ∀ u : Fin 2, cS3.pc u = PC.run → u = 0 := by decide
  cases h with
  | lockG t hpc hg =>
    exact absurd hg (by decide)
  | lockD t hpc hd =>
    exact absurd hpc (hnoacq t)
  | checkHit t hpc hfs =>
    exact absurd hpc (hnochk t)
  | checkMiss t hpc hfs =>
    exact absurd hpc (hnochk t)
  | runOk t hpc =>
    have ht : t = 0 := hrun0 t hpc
    subst ht
    decide
  | runFail t hpc =>
    have ht : t = 0 := hrun0 t hpc
    subst ht
    decide

/-- Claim C1 (amended): Encode's mutual exclusion is GLOBAL, not
per-artifact: e.mutex is locked at entry and unlocked by defer only at
return, so in every reachable state at most one caller is anywhere
inside Encode - at most one encoder subprocess runs at a time even for
DIFFERENT artifact paths, and a caller for a different artifact can be
blocked (see the counterexample).  The per-artifact dedup behaviour
claimed does hold: once an artifact is complete it persists and no
caller ever runs the encoder for it again - concurrent same-artifact
callers reuse the completed artifact, so it is encoded at most once. -/
theorem c1_global_serialization :
    (∀ (n : Nat) (dests : Fin n → String) (fs0 : String → Bool) (s : CState n),
      EReach (initC n dests fs0) s →
      ∀ t u, pcActive (s.pc t) → pcActive (s.pc u) → t = u) ∧
    (∀ (n : Nat) (dests : Fin n → String) (fs0 : String → Bool) (s s2 : CState n) (d : String),
      EReach (initC n dests fs0) s → EStep s s2 → s.fs d = true →
      s2.fs d = true ∧ s2.runs d = s.runs d) := by
  constructor
  · intro n dests fs0 s hr t u ht hu
    obtain ⟨h1, _⟩ := cinv_reach hr
    exact Option.some.inj ((h1 t ht).symm.trans (h1 u hu))
  · intro n dests fs0 s s2 d hr hs hd
    obtain ⟨h1, h2⟩ := cinv_reach hr
    cases hs with
    | lockG t hpc hg => exact ⟨hd, rfl⟩
    | lockD t hpc hdo => exact ⟨hd, rfl⟩
    | checkHit t hpc hfs => exact ⟨hd, rfl⟩
    | checkMiss t hpc hfs => exact ⟨hd, rfl⟩
    | runOk t hpc =>
      have hne : d ≠ s.dest t := by
        intro he
        have h3 := h2 t hpc
        rw [← he, hd] at h3
        exact absurd h3 (by simp)
      dsimp only
      rw [Function.update_noteq hne, Function.update_noteq hne]
      exact ⟨hd, rfl⟩
    | runFail t hpc =>
      have hne : d ≠ s.dest t := by
        intro he
        have h3 := h2 t hpc
        rw [← he, hd] at h3
        exact absurd h3 (by simp)
      dsimp only
      rw [Function.update_noteq hne, Function.update_noteq hne]
      exact ⟨hd, rfl⟩

/-- Witness for c1_global_serialization: in the concrete reachable state
cS3 the single active thread is thread 0. -/
theorem c1_global_serialization_witness :
    EReach cInit cS3 ∧ (0 : Fin 2) = 0 :=
  ⟨ereach_cS3,
   c1_global_serialization.1 2 cDests (fun _ => false) cS3 ereach_cS3 0 0 trivial trivial⟩

/-! ### Claim C2: failed encodes -/

/-- Encoder.Encode ends in return nil on every path that reaches the
tool run (river.go 771): the command error never escapes. -/
theorem encodeGo_err_none (fs : String → Bool) (dest : String) (o : RunOutcome) :
    (encodeGo fs dest o).1 = none := by
  unfold encodeGo
  by_cases hfs : fs dest
  · rw [if_pos hfs]
  · rw [if_neg hfs]
    rcases o with _ | pl <;> rfl

theorem encodeGo_ran (fs : String → Bool) (dest : String) (o : RunOutcome) :
    (encodeGo fs dest o).2.2 = !(fs dest) := by
  unfold encodeGo
  cases h2 : fs dest <;> rcases o with _ | pl <;> simp

/-- Claim C2 under the code as written: Encoder.Encode ALWAYS returns nil
(river.go 771), so while a failed transcode does remove the partial
artifact (the path does not exist afterwards) and a subsequent request
re-runs the encode, the failure is NOT surfaced: getStream's
StatusInternalServerError branch (1083-1085) is dead code and the
request is answered by serving the (missing) artifact path instead of a
server error. -/
theorem c2_encode_swallows_error :
    (∀ (fs : String → Bool) (dest : String) (o : RunOutcome), (encodeGo fs dest o).1 = none) ∧
    ((encodeGo (fun _ => false) ".stream/cccccccc.opus" (RunOutcome.failure true)).2.1
        ".stream/cccccccc.opus" = false ∧
     (encodeGo (fun _ => false) ".stream/cccccccc.opus" (RunOutcome.failure true)).2.2 = true ∧
     (getStreamGo c3ByID (fun _ => false) (RunOutcome.failure true) "cccccccc.opus").1 ≠
       StreamResp.serverError ∧
     (getStreamGo c3ByID (fun _ => false) (RunOutcome.failure true) "cccccccc.opus").1 =
       StreamResp.serveFile ".stream/cccccccc.opus" "audio/ogg" ∧
     (getStreamGo c3ByID
        ((getStreamGo c3ByID (fun _ => false) (RunOutcome.failure true) "cccccccc.opus").2.1)
        RunOutcome.success "cccccccc.opus").2.2 = true) := by
  constructor
  · intro fs dest o
    unfold encodeGo
    by_cases hfs : fs dest
    · rw [if_pos hfs]
    · rw [if_neg hfs]
      rcases o with _ | pl
      · rfl
      · rfl
  · exact ⟨by decide, by decide, by decide, by decide, by decide⟩

/-! ### Claim C3: no container/codec short-circuit -/

/-- Claim C3 counterexample: a track whose source file already is an Opus
container (album/track.opus) requested as .opus.  The claimed behaviour
is to return the source path with no encode and no cache entry; the code
has no container/codec match check at all (Song records no codec) and
instead serves the artifact path derived from the id, invoking the
encoder because the artifact does not exist. -/
theorem c3_no_shortcircuit_counterexample :
    (getStreamGo c3ByID (fun _ => false) RunOutcome.success "cccccccc.opus").1 =
      StreamResp.serveFile ".stream/cccccccc.opus" "audio/ogg" ∧
    (getStreamGo c3ByID (fun _ => false) RunOutcome.success "cccccccc.opus").2.2 = true ∧
    ".stream/cccccccc.opus" ≠ c3Song.path := by
  decide

/-- Claim C3 (amended): for every stream request that resolves to a track
and a supported format, getStream always serves the artifact path
derived from the track id and the requested extension - never the source
path, with no inspection of the source container/codec (the Track
records none) - and the encoder subprocess runs exactly when that
artifact does not yet exist. -/
theorem c3_always_artifact_path :
    ∀ (byID : List (String × Song)) (fs : String → Bool) (o : RunOutcome) (base : String)
      (s : Song) (af : Afmt),
      alookup (trimSuffix base (pathExt base)) byID = some s →
      alookup (pathExt base) afmts = some af →
      (getStreamGo byID fs o base).1 =
        StreamResp.serveFile (streamPath s (pathExt base)) af.mime ∧
      (getStreamGo byID fs o base).2.2 = !(fs (streamPath s (pathExt base))) := by
  intro byID fs o base s af hs haf
  simp only [getStreamGo]
  rw [hs, haf]
  dsimp only
  rw [encodeGo_err_none]
  exact ⟨rfl, encodeGo_ran fs (streamPath s (pathExt base)) o⟩

/-- Witness for c3_always_artifact_path on the concrete track. -/
theorem c3_always_artifact_path_witness :
    (alookup (trimSuffix "cccccccc.opus" (pathExt "cccccccc.opus")) c3ByID = some c3Song ∧
     alookup (pathExt "cccccccc.opus") afmts =
       some { fmt := "ogg", mime := "audio/ogg",
              args := ["-b:a", "128000", "-compression_level", "0"] }) ∧
    (getStreamGo c3ByID (fun _ => false) RunOutcome.success "cccccccc.opus").1 =
      StreamResp.serveFile (streamPath c3Song (pathExt "cccccccc.opus")) "audio/ogg" :=
  ⟨⟨by decide, by decide⟩,
   (c3_always_artifact_path c3ByID (fun _ => false) RunOutcome.success "cccccccc.opus" c3Song
     { fmt := "ogg", mime := "audio/ogg",
       args := ["-b:a", "128000", "-compression_level", "0"] }
     (by decide) (by decide)).1⟩

/-! ### Claim C10: the probe-score type assertion -/

/-- Claim C10 under the code as written: newSong is NOT total over probe
outputs.  Line 866 performs the unchecked interface assertion
t.Format["probe_score"].(float64); on a format block with no probe_score
field, or with a non-numeric one, the Go program panics instead of
returning an error - even though every other lookup in newSong uses the
checked, total form. -/
theorem c10_probe_score_panic :
    newSongGo c10BadProbe "x.mp3" none (some "aaaaaaaa") 0 =
      GoResult.goPanic "interface conversion: probe_score is not a float64" ∧
    newSongGo c10BadProbe2 "x.mp3" none (some "aaaaaaaa") 0 =
      GoResult.goPanic "interface conversion: probe_score is not a float64" ∧
    newSongGo probeOutPlain "x.mp3" none (some "aaaaaaaa") 7 =
      GoResult.ok { id := "aaaaaaaa", path := "x.mp3", time := 7, artist := "x", album := "",
                    disc := 0, track := 0, title := "" } :=
  ⟨rfl, rfl, by decide⟩

end River
